import Mathlib

/-
  Verification of the Exam Question Explanation Engine of the vocab-backend
  repository against its natural-language specification.

  Strings of the TypeScript source are modelled as `List Char` (`Str`).
  Untrusted JSON values (raw model responses) are modelled by the inductive
  type `JsonV`; JSON numbers are modelled as integers (the engine never
  branches on fractional values).  Asynchronous external services (the
  kuromoji tokenizer, the generative-model HTTP calls, the relational store)
  are modelled as explicit parameters: the tokenizer as a function value
  behind an `Except`-typed initialisation result, model calls as the parsed
  response value (`Option JsonV`, `none` = HTTP failure / empty body /
  unparseable content), and the store as explicit state passing.
-/

namespace VocabBackend

/-- Characters of the TypeScript strings. -/
abbrev Str := List Char

/-- Converts a Lean string literal to the `List Char` model. -/
def str (s : String) : Str := s.data

/-- Whitespace characters recognised by the JavaScript regex class
backslash-s and by trim (space, tab, LF, CR, VT, FF, NBSP, ideographic
space, BOM). -/
def isJsWhitespace (c : Char) : Bool :=
  [' ', '\t', '\n', '\r', Char.ofNat 0x0b, Char.ofNat 0x0c,
    Char.ofNat 0xa0, Char.ofNat 0x3000, Char.ofNat 0xfeff].contains c

/-- Models JavaScript String.prototype.trim. -/
def jsTrim (s : Str) : Str :=
  ((s.dropWhile isJsWhitespace).reverse.dropWhile isJsWhitespace).reverse

/-- Position of the first (leftmost) occurrence of `sub` in `s`, as JavaScript
indexOf computes it (an empty `sub` matches at position 0). -/
def firstMatchPos : Str → Str → Option Nat
  | s, sub =>
    if sub.isPrefixOf s then some 0
    else
      match s with
      | [] => none
      | _ :: rest => (firstMatchPos rest sub).map (· + 1)

/-- Models JavaScript String.prototype.indexOf with a start position
(the result is an absolute index that is at least `start`). -/
def indexOfFrom (s sub : Str) (start : Nat) : Option Nat :=
  if sub = [] then some (min start s.length)
  else (firstMatchPos (s.drop start) sub).map (· + start)

/-- Models JavaScript String.prototype.includes. -/
def strIncludes (s sub : Str) : Bool :=
  (firstMatchPos s sub).isSome

/-- Models the per-line whitespace collapse of the regex replace of
backslash-s-plus by a single space; the flag records whether the previous
character was part of a whitespace run already emitted. -/
def collapseWsAux : Bool → Str → Str
  | _, [] => []
  | prevWs, c :: rest =>
    if isJsWhitespace c then
      if prevWs then collapseWsAux true rest
      else ' ' :: collapseWsAux true rest
    else c :: collapseWsAux false rest

/-- Models the JavaScript replace of every whitespace run by one space. -/
def collapseWs (s : Str) : Str := collapseWsAux false s

/- ------------------------------------------------------------------ -/
/- Reading Annotator (source file with toReadingHiragana / toRubyHtml) -/
/- ------------------------------------------------------------------ -/

/-- A kuromoji morpheme: surface form plus an optional reading field. -/
structure KuromojiToken where
  surface_form : Str
  reading : Option Str
deriving DecidableEq

/-- A built kuromoji tokenizer, as consumed by the annotator. -/
def Tokenizer := Str → List KuromojiToken

/-- Failure of the one-time tokenizer initialisation. -/
inductive TokenizerError where
  | initFailed
deriving DecidableEq

/-- Models the katakana-to-hiragana character shift of the source
(code points 0x30a1..0x30f6 are shifted down by 0x60). -/
def katakanaToHiragana (input : Str) : Str :=
  input.map (fun c =>
    if 0x30a1 ≤ c.toNat ∧ c.toNat ≤ 0x30f6 then Char.ofNat (c.toNat - 0x60) else c)

/-- CJK ideograph test of the source's containsKanji regex. -/
def isCjkIdeograph (c : Char) : Bool :=
  (0x3400 ≤ c.toNat ∧ c.toNat ≤ 0x4dbf) ∨
  (0x4e00 ≤ c.toNat ∧ c.toNat ≤ 0x9fff) ∨
  (0xf900 ≤ c.toNat ∧ c.toNat ≤ 0xfaff)

/-- Whether the span contains at least one CJK ideograph. -/
def containsKanji (input : Str) : Bool :=
  input.any isCjkIdeograph

/-- Expansion of a single character under the source's escapeHtml chain of
global replaces; the chained replaces are equivalent to this per-character
expansion because no replacement string contains a character that a later
replace in the chain targets. -/
def escapeHtmlChar (c : Char) : Str :=
  if c = '&' then str "&amp;"
  else if c = '<' then str "&lt;"
  else if c = '>' then str "&gt;"
  else if c = '"' then str "&quot;"
  else if c = Char.ofNat 39 then str "&#39;"
  else [c]

/-- Models the source's escapeHtml. -/
def escapeHtml (input : Str) : Str :=
  (input.map escapeHtmlChar).flatten

/-- Assoc-list lookup modelling a JavaScript object property read. -/
def jsGet {α : Type} (m : List (Str × α)) (k : Str) : Option α :=
  (m.find? (fun p => decide (p.1 = k))).map (·.2)

/-- Assoc-list update modelling a JavaScript object property write or
Map.set: an existing key keeps its position, a new key is appended. -/
def jsMapSet {α : Type} (m : List (Str × α)) (k : Str) (v : α) : List (Str × α) :=
  if m.any (fun p => decide (p.1 = k)) then
    m.map (fun p => if p.1 = k then (k, v) else p)
  else m ++ [(k, v)]

/-- Models normalizeSurfaceReadings of the annotator: entries are trimmed,
blank surfaces or readings are dropped, later entries overwrite earlier
ones for the same trimmed surface. -/
def normalizeSurfaceReadings (value : List (Str × Str)) : List (Str × Str) :=
  value.foldl
    (fun out p =>
      let s := jsTrim p.1
      let r := jsTrim p.2
      if s = [] ∨ r = [] then out else jsMapSet out s r)
    []

/-- Reading emitted for one morpheme by tokenizeLineToHiragana: the forced
reading for the exact surface if present (non-empty), else the tokenizer's
reading if non-empty, else the surface itself, all katakana-normalized. -/
def tokenReadingHira (surfaceReadings : List (Str × Str)) (token : KuromojiToken) : Str :=
  let surface := token.surface_form
  let forced := (jsGet surfaceReadings surface).getD []
  if forced ≠ [] then katakanaToHiragana forced
  else
    let reading := token.reading.getD []
    if reading ≠ [] then katakanaToHiragana reading
    else katakanaToHiragana surface

/-- Models tokenizeLineToHiragana of the annotator. -/
def tokenizeLineToHiragana (tokenizer : Tokenizer) (line : Str)
    (surfaceReadings : List (Str × Str)) : Str :=
  if line = [] then []
  else ((tokenizer line).map (tokenReadingHira surfaceReadings)).flatten

/-- Ruby markup emitted for one morpheme by tokenizeLineToRubyHtml. -/
def tokenRubyHtml (surfaceReadings : List (Str × Str)) (token : KuromojiToken) : Str :=
  let surface := token.surface_form
  let escapedSurface := escapeHtml surface
  let forced := (jsGet surfaceReadings surface).getD []
  let reading := katakanaToHiragana (if forced ≠ [] then forced else token.reading.getD [])
  if reading = [] ∨ ¬containsKanji surface then escapedSurface
  else str "<ruby>" ++ escapedSurface ++ str "<rt>" ++ escapeHtml reading ++ str "</rt></ruby>"

/-- Models tokenizeLineToRubyHtml of the annotator. -/
def tokenizeLineToRubyHtml (tokenizer : Tokenizer) (line : Str)
    (surfaceReadings : List (Str × Str)) : Str :=
  if line = [] then []
  else ((tokenizer line).map (tokenRubyHtml surfaceReadings)).flatten

/-- Models toReadingHiragana; the lazily-built shared tokenizer is the
`init` parameter (an initialisation failure propagates as the error). -/
def toReadingHiragana (init : Except TokenizerError Tokenizer) (text : Str)
    (surfaceReadingsOpt : List (Str × Str)) : Except TokenizerError Str :=
  if jsTrim text = [] then .ok []
  else do
    let tokenizer ← init
    let surfaceReadings := normalizeSurfaceReadings surfaceReadingsOpt
    let lines := text.splitOn '\n'
    .ok (List.intercalate ['\n']
      (lines.map (fun line => tokenizeLineToHiragana tokenizer line surfaceReadings)))

/-- Models toRubyHtml; lines are re-joined with the line-break marker. -/
def toRubyHtml (init : Except TokenizerError Tokenizer) (text : Str)
    (surfaceReadingsOpt : List (Str × Str)) : Except TokenizerError Str :=
  if jsTrim text = [] then .ok []
  else do
    let tokenizer ← init
    let surfaceReadings := normalizeSurfaceReadings surfaceReadingsOpt
    let lines := text.splitOn '\n'
    .ok (List.intercalate (str "<br/>")
      (lines.map (fun line => tokenizeLineToRubyHtml tokenizer line surfaceReadings)))

/- ------------------------------------------------------------------ -/
/- Claims C8 and C10: the Reading Annotator contract                   -/
/- ------------------------------------------------------------------ -/

/-- Reading the claim assigns to one morpheme: the forced reading supplied
for that exact surface form (normalized from katakana to hiragana), else
the tokenizer's reading if present, else the surface form itself converted
to hiragana. -/
def specMorphemeReading (forced : List (Str × Str)) (token : KuromojiToken) : Str :=
  match jsGet forced token.surface_form with
  | some f => katakanaToHiragana f
  | none =>
    match token.reading with
    | some r => katakanaToHiragana r
    | none => katakanaToHiragana token.surface_form

/-- The claim's description of toReadingHiragana, written from the spec's
words for comparison with the source translation: split the input into
lines, tokenize each line independently, convert each morpheme by
`specMorphemeReading`, and re-join the per-line results with newline. -/
def toReadingHiraganaSpec (tokenizer : Tokenizer) (text : Str)
    (forced : List (Str × Str)) : Str :=
  List.intercalate ['\n']
    ((text.splitOn '\n').map
      (fun line => ((tokenizer line).map (specMorphemeReading forced)).flatten))

lemma jsMapSet_not_mem {α : Type} (m : List (Str × α)) (k : Str) (v : α)
    (h : k ∉ m.map Prod.fst) : jsMapSet m k v = m ++ [(k, v)] := by
  unfold jsMapSet
  rw [if_neg]
  intro hany
  rcases List.any_eq_true.mp hany with ⟨p, hp, hk⟩
  exact h (List.mem_map.mpr ⟨p, hp, of_decide_eq_true hk⟩)

lemma normalizeSurfaceReadings_foldl (l : List (Str × Str)) :
    ∀ acc : List (Str × Str),
      (∀ p ∈ l, jsTrim p.1 = p.1 ∧ jsTrim p.2 = p.2 ∧ p.1 ≠ [] ∧ p.2 ≠ []) →
      (∀ p ∈ l, p.1 ∉ acc.map Prod.fst) →
      (l.map Prod.fst).Nodup →
      l.foldl
        (fun out p =>
          let s := jsTrim p.1
          let r := jsTrim p.2
          if s = [] ∨ r = [] then out else jsMapSet out s r) acc = acc ++ l := by
  induction l with
  | nil => intro acc _ _ _; simp
  | cons p rest ih =>
    intro acc hwf hdisj hnodup
    rw [List.map_cons, List.nodup_cons] at hnodup
    have hp := hwf p (List.mem_cons_self p rest)
    have hnp : p.1 ∉ acc.map Prod.fst := hdisj p (List.mem_cons_self p rest)
    have hstep :
        (if jsTrim p.1 = [] ∨ jsTrim p.2 = [] then acc else jsMapSet acc (jsTrim p.1) (jsTrim p.2))
          = acc ++ [p] := by
      rw [if_neg, hp.1, hp.2.1, jsMapSet_not_mem acc p.1 p.2 hnp]
      rw [hp.1, hp.2.1]
      rintro (h1 | h2)
      · exact hp.2.2.1 h1
      · exact hp.2.2.2 h2
    simp only [List.foldl_cons]
    rw [hstep, ih (acc ++ [p]) (fun q hq => hwf q (List.mem_cons_of_mem p hq))
      (fun q hq => ?_) hnodup.2]
    · simp
    · rw [List.map_append]
      simp only [List.mem_append, List.map_cons, List.map_nil, List.mem_singleton]
      rintro (h1 | h2)
      · exact hdisj q (List.mem_cons_of_mem p hq) h1
      · exact hnodup.1 (h2 ▸ List.mem_map.mpr ⟨q, hq, rfl⟩)

lemma normalizeSurfaceReadings_wf (forced : List (Str × Str))
    (hwf : ∀ p ∈ forced, jsTrim p.1 = p.1 ∧ jsTrim p.2 = p.2 ∧ p.1 ≠ [] ∧ p.2 ≠ [])
    (hnodup : (forced.map Prod.fst).Nodup) :
    normalizeSurfaceReadings forced = forced := by
  unfold normalizeSurfaceReadings
  simpa using normalizeSurfaceReadings_foldl forced [] hwf (by simp) hnodup

lemma jsGet_mem {α : Type} {m : List (Str × α)} {k : Str} {v : α}
    (h : jsGet m k = some v) : ∃ p ∈ m, p.1 = k ∧ p.2 = v := by
  unfold jsGet at h
  rcases Option.map_eq_some'.mp h with ⟨p, hfind, hv⟩
  have hk := List.find?_some hfind
  simp only [decide_eq_true_eq] at hk
  exact ⟨p, List.mem_of_find?_eq_some hfind, hk, hv⟩

/-- C8: for every input text with at least one non-whitespace character,
every tokenizer that produces no morphemes for the empty line and no
present-but-empty readings, and every forced-readings map already in the
normalized form the annotator stores (trimmed non-empty surfaces/readings,
distinct surfaces), toReadingHiragana equals the claim's per-line,
per-morpheme description: forced reading first, then the tokenizer's
reading, then the surface itself, lines re-joined with newline.  (The
blank-input short-circuit makes the claim's unrestricted form false; see
the counterexample.) -/
theorem c8_reading_priority_per_line (tok : Tokenizer) (text : Str)
    (forced : List (Str × Str))
    (hNonBlank : jsTrim text ≠ [])
    (hEmptyLine : tok [] = [])
    (hReadings : ∀ line t, t ∈ tok line → t.reading ≠ some [])
    (hWf : ∀ p ∈ forced, jsTrim p.1 = p.1 ∧ jsTrim p.2 = p.2 ∧ p.1 ≠ [] ∧ p.2 ≠ [])
    (hNodup : (forced.map Prod.fst).Nodup) :
    toReadingHiragana (.ok tok) text forced = .ok (toReadingHiraganaSpec tok text forced) := by
  unfold toReadingHiragana
  rw [if_neg hNonBlank]
  show Except.ok _ = _
  unfold toReadingHiraganaSpec
  rw [normalizeSurfaceReadings_wf forced hWf hNodup]
  congr 1
  congr 1
  apply List.map_congr_left
  intro line _
  unfold tokenizeLineToHiragana
  by_cases hline : line = []
  · subst hline
    rw [if_pos rfl, hEmptyLine]
    simp
  · rw [if_neg hline]
    congr 1
    apply List.map_congr_left
    intro t ht
    unfold tokenReadingHira specMorphemeReading
    cases hget : jsGet forced t.surface_form with
    | some f =>
      have hf : f ≠ [] := by
        rcases jsGet_mem hget with ⟨p, hp, _, hv⟩
        exact hv ▸ (hWf p hp).2.2.2
      simp [hget, hf]
    | none =>
      simp only [hget, Option.getD_none, Option.getD_some]
      rw [if_neg (by simp)]
      cases hr : t.reading with
      | none => simp
      | some r =>
        have : r ≠ [] := by
          intro he
          exact hReadings line t ht (by rw [hr, he])
        simp [this]

/-- Tokenizer used to exhibit the blank-input divergence: it returns a
morpheme with a reading for the single-space line. -/
def c8Tokenizer : Tokenizer := fun line =>
  if line = [' '] then [⟨[' '], some (str "ア")⟩] else []

/-- C8 counterexample: on the whitespace-only input consisting of one
space, the source returns the empty string without tokenizing, while the
claim's split-tokenize-join description yields the reading of the space
morpheme; the claim as stated (for every input text) is therefore false. -/
theorem c8_counterexample :
    toReadingHiragana (.ok c8Tokenizer) (str " ") [] ≠
      .ok (toReadingHiraganaSpec c8Tokenizer (str " ") []) := by
  intro h
  have h1 : toReadingHiragana (.ok c8Tokenizer) (str " ") [] = .ok [] := rfl
  rw [h1] at h
  exact absurd (Except.ok.inj h) (by decide)

/-- Tokenizer used by the C8 witness. -/
def c8WitnessTok : Tokenizer := fun line =>
  if line = str "山" then [⟨str "山", some (str "ヤマ")⟩] else []

/-- C8 witness: the amended theorem applied at a concrete tokenizer, text
and forced-readings map. -/
theorem c8_witness :
    toReadingHiragana (.ok c8WitnessTok) (str "山") [(str "山", str "やま")] =
      .ok (toReadingHiraganaSpec c8WitnessTok (str "山") [(str "山", str "やま")]) := by
  apply c8_reading_priority_per_line
  · decide
  · decide
  · intro line t ht
    unfold c8WitnessTok at ht
    by_cases h : line = str "山"
    · rw [if_pos h] at ht
      simp at ht
      rw [ht]
      decide
    · rw [if_neg h] at ht
      simp at ht
  · decide
  · decide

/-- C10: for every input that is empty or whitespace-only, both
toReadingHiragana and toRubyHtml return the empty string for every
tokenizer-initialisation outcome — in particular for a failed
initialisation — so the tokenizer is never forced and initialisation
failure is unreachable for blank input. -/
theorem c10_blank_input_skips_tokenizer (init : Except TokenizerError Tokenizer)
    (opts₁ opts₂ : List (Str × Str)) (text : Str) (hBlank : jsTrim text = []) :
    toReadingHiragana init text opts₁ = .ok [] ∧ toRubyHtml init text opts₂ = .ok [] := by
  constructor
  · unfold toReadingHiragana
    rw [if_pos hBlank]
  · unfold toRubyHtml
    rw [if_pos hBlank]

/-- C10 witness: the theorem applied to a whitespace-only input and a
failed tokenizer initialisation. -/
theorem c10_witness :
    toReadingHiragana (.error .initFailed) (str "  ") [] = .ok [] ∧
      toRubyHtml (.error .initFailed) (str "  ") [] = .ok [] :=
  c10_blank_input_skips_tokenizer (.error .initFailed) [] [] (str "  ") (by decide)

/- ------------------------------------------------------------------ -/
/- JSON model for untrusted generative-model output                    -/
/- ------------------------------------------------------------------ -/

/-- Untrusted JSON values parsed from the generative model's response.
Numbers are modelled as integers; the engine only stringifies them. -/
inductive JsonV where
  | jnull : JsonV
  | jbool : Bool → JsonV
  | jnum : Int → JsonV
  | jstr : Str → JsonV
  | jarr : List JsonV → JsonV
  | jobj : List (Str × JsonV) → JsonV

mutual

/-- Models the JavaScript String() conversion of a JSON value (arrays join
their elements with commas, objects print the object tag). -/
def jsToString : JsonV → Str
  | .jnull => str "null"
  | .jbool true => str "true"
  | .jbool false => str "false"
  | .jnum n => str (toString n)
  | .jstr s => s
  | .jarr l => List.intercalate [','] (jsArrayElems l)
  | .jobj _ => str "[object Object]"

/-- String() of the elements of an array: null prints as the empty string
inside an array join. -/
def jsArrayElems : List JsonV → List Str
  | [] => []
  | .jnull :: rest => [] :: jsArrayElems rest
  | v :: rest => jsToString v :: jsArrayElems rest

end

/-- Models the source's text helper: null/undefined give null, otherwise
the trimmed String() conversion, with the empty string mapped to null. -/
def text : JsonV → Option Str
  | .jnull => none
  | v => let s := jsTrim (jsToString v); if s = [] then none else some s

/-- text applied to a possibly-missing property (undefined gives null). -/
def textOpt : Option JsonV → Option Str
  | none => none
  | some v => text v

/-- Models the source's isObject: a non-null value of object type
(arrays included). -/
def isObject : JsonV → Bool
  | .jobj _ => true
  | .jarr _ => true
  | _ => false

/-- JavaScript property read on a JSON value (non-objects and arrays have
none of the engine's named properties). -/
def jget : JsonV → Str → Option JsonV
  | .jobj fields, k => (fields.find? (fun p => decide (p.1 = k))).map (·.2)
  | _, _ => none

/-- Property read followed by the Array.isArray guard of the source. -/
def jgetArr (v : JsonV) (k : Str) : List JsonV :=
  match jget v k with
  | some (.jarr l) => l
  | _ => []

/-- Models the JavaScript string or-else idiom a-or-b for strings. -/
def jsOr (a b : Str) : Str := if a ≠ [] then a else b

/-- Models the strict JavaScript equality of a (possibly missing) JSON
value against a fixed string literal. -/
def isJsonStrEq (v : Option JsonV) (s : Str) : Bool :=
  match v with
  | some (.jstr t) => decide (t = s)
  | _ => false

/- ------------------------------------------------------------------ -/
/- examExplanation.ts: option-key normalization and sorting            -/
/- ------------------------------------------------------------------ -/

/-- Full-width digit to ASCII digit, as the source's regex replace. -/
def toAsciiDigitChar (c : Char) : Char :=
  if 0xff10 ≤ c.toNat ∧ c.toNat ≤ 0xff19 then Char.ofNat (c.toNat - 0xfee0) else c

/-- Core of normalizeOptionKey on an already-stringified value: trim,
normalize full-width digits, then take the first character in 1..4 if any,
else the whole normalized string. -/
def normalizeOptionKeyStr (s : Str) : Str :=
  let raw := jsTrim s
  if raw = [] then []
  else
    let normalized := raw.map toAsciiDigitChar
    match normalized.find? (fun c => decide ('1' ≤ c ∧ c ≤ '4')) with
    | some c => [c]
    | none => normalized

/-- Models normalizeOptionKey of the source on a JSON value. -/
def normalizeOptionKey : JsonV → Str
  | .jnull => []
  | v => normalizeOptionKeyStr (jsToString v)

/-- normalizeOptionKey applied to a possibly-missing property. -/
def normalizeOptionKeyOpt : Option JsonV → Str
  | none => []
  | some v => normalizeOptionKey v

/-- Digit run to number. -/
def digitsToNat (l : Str) : Nat :=
  l.foldl (fun acc c => acc * 10 + (c.toNat - '0'.toNat)) 0

/-- Models the JavaScript Number() conversion for the strings the engine
sorts: blank gives 0, an optionally-signed decimal integer gives its value,
anything else is NaN (`none`); other numeric literal forms the engine never
produces are also mapped to `none`. -/
def jsNumberInt (s : Str) : Option Int :=
  let t := jsTrim s
  if t = [] then some 0
  else
    let sd : Int × Str :=
      match t with
      | '-' :: rest => (-1, rest)
      | '+' :: rest => (1, rest)
      | _ => (1, t)
    if sd.2 ≠ [] ∧ sd.2.all (fun c => decide ('0' ≤ c ∧ c ≤ '9')) then
      some (sd.1 * (digitsToNat sd.2 : Int))
    else none

/-- Lexicographic code-point comparison, modelling localeCompare for the
option-key alphabet the engine sorts. -/
def lexCompareStr : Str → Str → Int
  | [], [] => 0
  | [], _ :: _ => -1
  | _ :: _, [] => 1
  | a :: as, b :: bs =>
    if a.toNat < b.toNat then -1
    else if b.toNat < a.toNat then 1
    else lexCompareStr as bs

/-- Models sortOptionKey of the source: numeric comparison of the
normalized keys when both are finite numbers, else localeCompare. -/
def sortOptionKey (a b : Str) : Int :=
  match jsNumberInt (normalizeOptionKeyStr a), jsNumberInt (normalizeOptionKeyStr b) with
  | some na, some nb => na - nb
  | _, _ => lexCompareStr a b

/-- Insertion of an element into a comparator-sorted list, placing it
before the first element not strictly below it; used to model the stable
Array.prototype.sort. -/
def insertSorted {α : Type} (le : α → α → Bool) (x : α) : List α → List α
  | [] => [x]
  | y :: ys => if le x y then x :: y :: ys else y :: insertSorted le x ys

/-- Stable sort modelling Array.prototype.sort with a comparator (for a
consistent comparator this agrees with every stable sort; the JavaScript
behaviour for an inconsistent comparator is implementation-defined). -/
def jsStableSort {α : Type} (le : α → α → Bool) : List α → List α
  | [] => []
  | x :: xs => insertSorted le x (jsStableSort le xs)

lemma insertSorted_perm {α : Type} (le : α → α → Bool) (x : α) :
    ∀ l : List α, List.Perm (insertSorted le x l) (x :: l) := by
  intro l
  induction l with
  | nil => exact List.Perm.refl _
  | cons y ys ih =>
    rw [insertSorted]
    split
    · exact List.Perm.refl _
    · exact (List.Perm.cons y ih).trans (List.Perm.swap x y ys)

lemma jsStableSort_perm {α : Type} (le : α → α → Bool) :
    ∀ l : List α, List.Perm (jsStableSort le l) l := by
  intro l
  induction l with
  | nil => exact List.Perm.refl _
  | cons x xs ih =>
    rw [jsStableSort]
    exact (insertSorted_perm le x (jsStableSort le xs)).trans (List.Perm.cons x ih)

/-- Models the stable Array.prototype.sort with the sortOptionKey
comparator. -/
def jsSortStrKeys (l : List Str) : List Str :=
  jsStableSort (fun a b => decide (sortOptionKey a b ≤ 0)) l

/-- Models hasCompleteOrder of the source: same length, and the two
comparator-sorted lists agree position by position. -/
def hasCompleteOrder (orderedOptions optionKeys : List Str) : Bool :=
  if orderedOptions.length ≠ optionKeys.length then false
  else
    ((jsSortStrKeys orderedOptions).zip (jsSortStrKeys optionKeys)).all
      (fun p => decide (p.1 = p.2))

/-- Loop of uniqueOptions with the running seen-set. -/
def uniqueOptionsAux (allow : List Str) : List Str → List Str → List Str
  | _, [] => []
  | seen, v :: rest =>
    let o := normalizeOptionKeyStr v
    if o = [] ∨ o ∉ allow ∨ o ∈ seen then uniqueOptionsAux allow seen rest
    else o :: uniqueOptionsAux allow (o :: seen) rest

/-- Models uniqueOptions of the source: normalize each value, drop blanks,
values outside the allow set and duplicates, keeping first occurrences. -/
def uniqueOptions (values allowKeys : List Str) : List Str :=
  uniqueOptionsAux allowKeys [] values

/-- Entry of the inferOptionOrderFromSentence intermediate array. -/
structure InferEntry where
  option : Str
  index : Int
  length : Nat
deriving DecidableEq

/-- Comparator of inferOptionOrderFromSentence: index ascending, ties by
longer text first. -/
def inferCmp (a b : InferEntry) : Int :=
  if a.index - b.index ≠ 0 then a.index - b.index
  else (b.length : Int) - (a.length : Int)

/-- Models inferOptionOrderFromSentence: locate each option's text in the
proposed sentence and sort the found ones by position. -/
def inferOptionOrderFromSentence (sentence : Str) (options : List (Str × Str)) : List Str :=
  if sentence = [] then []
  else
    let entries := options.map (fun kv =>
      { option := normalizeOptionKeyStr kv.1,
        index := if kv.2 ≠ [] then
            match firstMatchPos sentence kv.2 with
            | some i => (i : Int)
            | none => -1
          else -1,
        length := kv.2.length : InferEntry })
    let kept := entries.filter (fun e => decide (e.option ≠ [] ∧ 0 ≤ e.index))
    (jsStableSort (fun a b => decide (inferCmp a b ≤ 0)) kept).map (·.option)

/-- Models isSentenceContainsAllOptionTexts of the source. -/
def isSentenceContainsAllOptionTexts (sentence : Str) (orderedOptions : List Str)
    (options : List (Str × Str)) : Bool :=
  if sentence = [] ∨ orderedOptions = [] then false
  else orderedOptions.all (fun o =>
    let t := (jsGet options o).getD []
    decide (t ≠ []) && strIncludes sentence t)

/-- Cursor loop of isSentenceOptionOrderConsistent. -/
def sentenceOrderScan (sentence : Str) (options : List (Str × Str)) :
    List Str → Int → Bool
  | [], _ => true
  | o :: rest, cursor =>
    let t := (jsGet options o).getD []
    if t = [] then false
    else
      match indexOfFrom sentence t (cursor + 1).toNat with
      | none => false
      | some idx => if (idx : Int) < cursor then false else sentenceOrderScan sentence options rest idx

/-- Models isSentenceOptionOrderConsistent of the source: the option texts
occur at strictly advancing positions in the sentence, in order. -/
def isSentenceOptionOrderConsistent (sentence : Str) (orderedOptions : List Str)
    (options : List (Str × Str)) : Bool :=
  if sentence = [] ∨ orderedOptions = [] then false
  else sentenceOrderScan sentence options orderedOptions (-1)

/- ------------------------------------------------------------------ -/
/- examExplanation.ts: deterministic sentence rebuild                  -/
/- ------------------------------------------------------------------ -/

/-- Characters of the blank-cluster class around the star marker. -/
def isStarClusterChar (c : Char) : Bool :=
  (str "＿_ー－-〜～").contains c

/-- Longest suffix whose characters satisfy the predicate. -/
def takeRightWhileP (p : Char → Bool) (s : Str) : Str :=
  ((s.reverse.takeWhile p)).reverse

/-- Index of the last character satisfying the predicate. -/
def findLastIdxP (p : Char → Bool) (s : Str) : Option Nat :=
  match s.reverse.findIdx? p with
  | none => none
  | some j => some (s.length - 1 - j)

/-- Models the first-match replace of the star-cluster regex: the leftmost
match extends left over cluster/whitespace characters starting at a cluster
character and right over cluster/whitespace characters ending at a cluster
character, around the first star. -/
def starClusterReplaceOnce (s repl : Str) : Str :=
  match firstMatchPos s (str "★") with
  | none => s
  | some pIdx =>
    let before := s.take pIdx
    let after := s.drop (pIdx + 1)
    let leftRun := takeRightWhileP (fun c => isStarClusterChar c || isJsWhitespace c) before
    let consumedLeft := leftRun.dropWhile isJsWhitespace
    let rightRun := after.takeWhile (fun c => isStarClusterChar c || isJsWhitespace c)
    let consumedRightLen :=
      match findLastIdxP isStarClusterChar rightRun with
      | none => 0
      | some i => i + 1
    before.take (before.length - consumedLeft.length) ++ repl ++ after.drop consumedRightLen

/-- Models the global star replace that follows the cluster replace. -/
def replaceAllStars (s repl : Str) : Str :=
  List.intercalate repl (s.splitOn '★')

/-- Models normalizeWhitespaceLine of the source. -/
def normalizeWhitespaceLine (input : Str) : Str :=
  jsTrim (collapseWs input)

/- ------------------------------------------------------------------ -/
/- examExplanation.ts: payload, explanation and normalization          -/
/- ------------------------------------------------------------------ -/

/-- Question types of jlptQuestionType.ts. -/
inductive JlptQuestionType where
  | vocab_kanji_reading
  | vocab_kanji_writing
  | vocab_context
  | grammar_choice
  | sentence_order
  | reading_cloze
  | reading_content
  | listening
  | unknown
deriving DecidableEq

/-- Verdict of one option analysis entry. -/
inductive Verdict where
  | correct
  | wrong
deriving DecidableEq

/-- One entry of option_analysis. -/
structure OptionAnalysis where
  option : Str
  meaning_vi : Str
  verdict : Verdict
  reason_vi : Str
deriving DecidableEq

/-- One entry of grammar_points. -/
structure GrammarPoint where
  point : Str
  note_vi : Str
deriving DecidableEq

/-- One entry of options_with_reading. -/
structure OptionWithReading where
  option : Str
  text_ja : Str
  text_ruby_html : Str
  reading_hira : Str
  meaning_vi : Str
deriving DecidableEq

/-- One entry of key_vocab. -/
structure KeyVocab where
  surface : Str
  reading_hira : Str
  meaning_vi : Str
  why_important : Str
deriving DecidableEq

/-- The sentence-order solution nested in a sentence-assembly explanation. -/
structure SentenceOrderSolution where
  ordered_options : List Str
  ordered_sentence_ja : Str
  ordered_sentence_ruby_html : Str
  ordered_sentence_reading_hira : Str
  star_option : Str
  reason_vi : Str
deriving DecidableEq

/-- The normalized explanation object for a single question. -/
structure ExamQuestionExplanation where
  question_ja : Str
  question_ruby_html : Str
  question_reading_hira : Str
  question_translation_vi : Str
  sentence_order_solution : Option SentenceOrderSolution
  key_point_vi : Str
  reasoning_steps_vi : List Str
  option_analysis : List OptionAnalysis
  options_with_reading : List OptionWithReading
  key_vocab : List KeyVocab
  grammar_points : List GrammarPoint
  trap_patterns_vi : List Str
  part_strategy_vi : Str
  quick_tip_vi : Str
  final_conclusion_vi : Str
deriving DecidableEq

/-- The question payload handed to the explanation generator. -/
structure ExamQuestionPayload where
  level : Str
  examId : Str
  part : Int
  sectionTitle : Str
  questionLabel : Str
  mondaiLabel : Str
  questionType : JlptQuestionType
  questionTypeLabelVi : Str
  typeStrategyVi : Str
  questionText : Str
  questionWithBlank : Str
  questionWithAnswer : Str
  blankLabels : List Str
  isClozeQuestion : Bool
  options : List (Str × Str)
  correctAnswer : Str
  passageText : Str
  sentenceOrderExpectedOrder : List Str
deriving DecidableEq

/-- Precomputed readings threaded through normalization. -/
structure PrecomputedReadings where
  questionReadingHira : Str
  questionRubyHtml : Str
  optionReadings : List (Str × Str)
  optionRubyHtmls : List (Str × Str)
deriving DecidableEq

/-- The value the source works on: the parsed response if it is an object,
else the empty object. -/
def normalizedValue (raw : JsonV) : JsonV :=
  if isObject raw then raw else .jobj []

/-- The row asSentenceOrderSolution works on: the field value if it is
present and an object, else the empty object. -/
def sentenceOrderRow : Option JsonV → JsonV
  | some w => normalizedValue w
  | none => .jobj []

/-- Body of the first loop of normalizeExplanation (one model entry into
the by-option map). -/
def optionAnalysisStep (m : List (Str × OptionAnalysis)) (item : JsonV) :
    List (Str × OptionAnalysis) :=
  if ¬ isObject item then m
  else
    let option := normalizeOptionKeyOpt (jget item (str "option"))
    if option = [] then m
    else
      jsMapSet m option
        { option := option,
          meaning_vi := (textOpt (jget item (str "meaning_vi"))).getD [],
          verdict :=
            if isJsonStrEq (jget item (str "verdict")) (str "correct") then Verdict.correct
            else Verdict.wrong,
          reason_vi := (textOpt (jget item (str "reason_vi"))).getD [] }

/-- First loop of normalizeExplanation: collect the model's option-analysis
entries into the by-option map. -/
def buildOptionAnalysisMap (items : List JsonV) : List (Str × OptionAnalysis) :=
  items.foldl optionAnalysisStep []

/-- Body of the second loop of normalizeExplanation (synthesize a
placeholder for one payload option the model omitted). -/
def missingOptionStep (payload : ExamQuestionPayload)
    (m : List (Str × OptionAnalysis)) (kv : Str × Str) :
    List (Str × OptionAnalysis) :=
  if m.any (fun p => decide (p.1 = kv.1)) then m
  else
    jsMapSet m kv.1
      { option := kv.1,
        meaning_vi := [],
        verdict := if kv.1 = payload.correctAnswer then Verdict.correct else Verdict.wrong,
        reason_vi := [] }

/-- Second loop of normalizeExplanation: synthesize a placeholder entry for
every payload option key the model omitted. -/
def addMissingPayloadOptions (m : List (Str × OptionAnalysis))
    (payload : ExamQuestionPayload) : List (Str × OptionAnalysis) :=
  payload.options.foldl (missingOptionStep payload) m

/-- Verdict forcing pass: when the payload has a known correct answer,
exactly the matching entry is marked correct. -/
def forceVerdicts (payload : ExamQuestionPayload) (l : List OptionAnalysis) :
    List OptionAnalysis :=
  if payload.correctAnswer ≠ [] then
    l.map (fun i =>
      { i with verdict := if i.option = payload.correctAnswer then Verdict.correct else Verdict.wrong })
  else l

/-- Models asStringArray of the source. -/
def asStringArray : Option JsonV → List Str
  | some (.jarr l) => (l.map (fun i => (text i).getD [])).filter (fun s => decide (s ≠ []))
  | _ => []

/-- Models asKeyVocab of the source. -/
def asKeyVocab : Option JsonV → List KeyVocab
  | some (.jarr l) =>
    l.filterMap (fun item =>
      if ¬ isObject item then none
      else
        let surface := (textOpt (jget item (str "surface"))).getD []
        let reading_hira := (textOpt (jget item (str "reading_hira"))).getD []
        let meaning_vi := (textOpt (jget item (str "meaning_vi"))).getD []
        let why_important := (textOpt (jget item (str "why_important"))).getD []
        if surface = [] ∧ reading_hira = [] ∧ meaning_vi = [] ∧ why_important = [] then none
        else some { surface, reading_hira, meaning_vi, why_important })
  | _ => []

/-- Models asGrammarPoints of the source. -/
def asGrammarPoints : Option JsonV → List GrammarPoint
  | some (.jarr l) =>
    l.filterMap (fun item =>
      if ¬ isObject item then none
      else
        let point := (textOpt (jget item (str "point"))).getD []
        let note_vi := (textOpt (jget item (str "note_vi"))).getD []
        if point = [] ∧ note_vi = [] then none
        else some { point, note_vi })
  | _ => []

/-- Body of the collection loop of asOptionWithReading: one model entry
keyed by normalized option, with precomputed readings overriding model
readings. -/
def optionWithReadingStep (options optionReadings optionRubyHtmls : List (Str × Str))
    (m : List (Str × OptionWithReading)) (item : JsonV) :
    List (Str × OptionWithReading) :=
  if ¬ isObject item then m
  else
    let option := normalizeOptionKeyOpt (jget item (str "option"))
    if option = [] then m
    else
      jsMapSet m option
        { option := option,
          text_ja := jsOr ((textOpt (jget item (str "text_ja"))).getD [])
            ((jsGet options option).getD []),
          text_ruby_html := jsOr ((jsGet optionRubyHtmls option).getD [])
            ((textOpt (jget item (str "text_ruby_html"))).getD []),
          reading_hira := jsOr ((jsGet optionReadings option).getD [])
            ((textOpt (jget item (str "reading_hira"))).getD []),
          meaning_vi := (textOpt (jget item (str "meaning_vi"))).getD [] }

/-- Body of the placeholder loop of asOptionWithReading. -/
def missingOptionWithReadingStep (optionReadings optionRubyHtmls : List (Str × Str))
    (m : List (Str × OptionWithReading)) (kv : Str × Str) :
    List (Str × OptionWithReading) :=
  if m.any (fun p => decide (p.1 = kv.1)) then m
  else
    jsMapSet m kv.1
      { option := kv.1,
        text_ja := kv.2,
        text_ruby_html := (jsGet optionRubyHtmls kv.1).getD [],
        reading_hira := (jsGet optionReadings kv.1).getD [],
        meaning_vi := [] }

/-- Models asOptionWithReading of the source (continued): collect, fill in
missing payload options, and sort by option key. -/
def asOptionWithReading (value : Option JsonV) (options optionReadings optionRubyHtmls :
    List (Str × Str)) : List OptionWithReading :=
  let list := match value with | some (.jarr l) => l | _ => []
  let m1 := list.foldl (optionWithReadingStep options optionReadings optionRubyHtmls) []
  let m2 := options.foldl (missingOptionWithReadingStep optionReadings optionRubyHtmls) m1
  jsStableSort (fun a b => decide (sortOptionKey a.option b.option ≤ 0)) (m2.map Prod.snd)

/-- Models asSentenceOrderSolution of the source: null for non-assembly
questions, else an object synthesized from the (possibly absent or
non-object) field, with ordered options filtered to the payload's keys and
the star option forced to the known correct answer when one exists. -/
def asSentenceOrderSolution (value : Option JsonV) (payload : ExamQuestionPayload) :
    Option SentenceOrderSolution :=
  if payload.questionType ≠ .sentence_order then none
  else
    let row := sentenceOrderRow value
    let optionsSet := payload.options.map Prod.fst
    let orderedRaw := jgetArr row (str "ordered_options")
    let ordered_options := (orderedRaw.map normalizeOptionKey).filter
      (fun item => decide (item ≠ [] ∧ item ∈ optionsSet))
    some
      { ordered_options := ordered_options,
        ordered_sentence_ja := (textOpt (jget row (str "ordered_sentence_ja"))).getD [],
        ordered_sentence_ruby_html := (textOpt (jget row (str "ordered_sentence_ruby_html"))).getD [],
        ordered_sentence_reading_hira := (textOpt (jget row (str "ordered_sentence_reading_hira"))).getD [],
        star_option := jsOr payload.correctAnswer
          (normalizeOptionKeyOpt (jget row (str "star_option"))),
        reason_vi := (textOpt (jget row (str "reason_vi"))).getD [] }

/-- Models normalizeExplanation of the source: total normalization of an
arbitrary parsed model response into the strict explanation schema. -/
def normalizeExplanation (raw : JsonV) (payload : ExamQuestionPayload)
    (pre : PrecomputedReadings) : ExamQuestionExplanation :=
  let value := normalizedValue raw
  let byOption := addMissingPayloadOptions
    (buildOptionAnalysisMap (jgetArr value (str "option_analysis"))) payload
  let optionAnalysis := forceVerdicts payload
    (jsStableSort (fun a b => decide (sortOptionKey a.option b.option ≤ 0)) (byOption.map Prod.snd))
  let questionJaFallback := jsOr payload.questionWithBlank payload.questionText
  let forceOriginalQuestionText :=
    payload.questionType = .reading_content ∨ payload.questionType = .reading_cloze
  { question_ja :=
      if forceOriginalQuestionText then questionJaFallback
      else jsOr ((textOpt (jget value (str "question_ja"))).getD []) questionJaFallback,
    question_ruby_html := pre.questionRubyHtml,
    question_reading_hira := jsOr pre.questionReadingHira
      ((textOpt (jget value (str "question_reading_hira"))).getD []),
    question_translation_vi := (textOpt (jget value (str "question_translation_vi"))).getD [],
    sentence_order_solution := asSentenceOrderSolution (jget value (str "sentence_order_solution")) payload,
    key_point_vi := (textOpt (jget value (str "key_point_vi"))).getD [],
    reasoning_steps_vi := asStringArray (jget value (str "reasoning_steps_vi")),
    option_analysis := optionAnalysis,
    options_with_reading := asOptionWithReading (jget value (str "options_with_reading"))
      payload.options pre.optionReadings pre.optionRubyHtmls,
    key_vocab := asKeyVocab (jget value (str "key_vocab")),
    grammar_points := asGrammarPoints (jget value (str "grammar_points")),
    trap_patterns_vi := asStringArray (jget value (str "trap_patterns_vi")),
    part_strategy_vi := jsOr ((textOpt (jget value (str "part_strategy_vi"))).getD [])
      payload.typeStrategyVi,
    quick_tip_vi := (textOpt (jget value (str "quick_tip_vi"))).getD [],
    final_conclusion_vi := (textOpt (jget value (str "final_conclusion_vi"))).getD [] }

/- ------------------------------------------------------------------ -/
/- examExplanation.ts: sentence-order completion                       -/
/- ------------------------------------------------------------------ -/

/-- Models buildSentenceOrderCompletionSentence of the source: substitute
the concatenation of the ordered option texts for the blank cluster around
the star, or for the star itself, else append. -/
def buildSentenceOrderCompletionSentence (payload : ExamQuestionPayload)
    (orderedOptions : List Str) : Str :=
  let orderedText := (orderedOptions.map (fun o => (jsGet payload.options o).getD [])).flatten
  let base := jsOr payload.questionWithBlank payload.questionText
  if base = [] then orderedText
  else
    let replaced := replaceAllStars (starClusterReplaceOnce base orderedText) orderedText
    if replaced ≠ base then normalizeWhitespaceLine replaced
    else normalizeWhitespaceLine (base ++ [' '] ++ orderedText)

/-- Models repairSentenceOrderSolutionWithModel of the source; the single
narrower model call is the `response` parameter (`none` covers an HTTP
failure, an empty body and unparseable content, all of which the source
catches and turns into null). -/
def repairSentenceOrderSolutionWithModel (payload : ExamQuestionPayload)
    (current : SentenceOrderSolution) (response : Option JsonV) :
    Option SentenceOrderSolution :=
  let optionKeys := jsSortStrKeys (payload.options.map Prod.fst)
  if optionKeys = [] then none
  else
    match response with
    | none => none
    | some parsed =>
      let row := normalizedValue parsed
      let orderedRaw := jgetArr row (str "ordered_options")
      let ordered_options := uniqueOptions (orderedRaw.map (fun item => normalizeOptionKey item)) optionKeys
      let ordered_sentence_ja := (textOpt (jget row (str "ordered_sentence_ja"))).getD []
      let reason_vi := jsOr ((textOpt (jget row (str "reason_vi"))).getD []) current.reason_vi
      let completedOrder :=
        if hasCompleteOrder ordered_options optionKeys then ordered_options
        else uniqueOptions (ordered_options ++ optionKeys) optionKeys
      some
        { current with
          ordered_options := completedOrder,
          ordered_sentence_ja := jsOr ordered_sentence_ja current.ordered_sentence_ja,
          reason_vi := reason_vi }

/-- Deterministic padding step of completeSentenceOrderSolution: when the
order is still not a complete permutation, append the missing keys in
sorted order. -/
def padSentenceOrder (optionKeys : List Str) (s3 : SentenceOrderSolution) :
    SentenceOrderSolution :=
  if ¬ hasCompleteOrder s3.ordered_options optionKeys then
    { s3 with ordered_options := uniqueOptions (s3.ordered_options ++ optionKeys) optionKeys }
  else s3

/-- Ordering steps of completeSentenceOrderSolution: base-order adoption
from the exam's answer key, inference from the proposed sentence, the
single repair attempt, deterministic padding, and star forcing. -/
def completeSentenceOrderOrdering (payload : ExamQuestionPayload)
    (sol0 : SentenceOrderSolution) (repairResponse : Option JsonV) :
    SentenceOrderSolution :=
  let optionKeys := jsSortStrKeys (payload.options.map Prod.fst)
  let expectedOrder := uniqueOptions payload.sentenceOrderExpectedOrder optionKeys
  let s1 := if hasCompleteOrder expectedOrder optionKeys then
      { sol0 with ordered_options := expectedOrder } else sol0
  let inferredOrder := inferOptionOrderFromSentence s1.ordered_sentence_ja payload.options
  let mergedOrder := uniqueOptions (s1.ordered_options ++ inferredOrder) optionKeys
  let s2 := if mergedOrder ≠ [] then { s1 with ordered_options := mergedOrder } else s1
  let s3 := if ¬ hasCompleteOrder s2.ordered_options optionKeys then
      match repairSentenceOrderSolutionWithModel payload s2 repairResponse with
      | some repaired => repaired
      | none => s2
    else s2
  let s4 := padSentenceOrder optionKeys s3
  { s4 with star_option := jsOr payload.correctAnswer s4.star_option }

/-- Pure part of completeSentenceOrderSolution: the ordering steps followed
by the sentence validation and the deterministic rebuild when it fails. -/
def completeSentenceOrderCore (payload : ExamQuestionPayload)
    (sol0 : SentenceOrderSolution) (repairResponse : Option JsonV) :
    SentenceOrderSolution :=
  let s5 := completeSentenceOrderOrdering payload sol0 repairResponse
  if isSentenceContainsAllOptionTexts s5.ordered_sentence_ja s5.ordered_options payload.options
      && isSentenceOptionOrderConsistent s5.ordered_sentence_ja s5.ordered_options payload.options then
    s5
  else
    { s5 with ordered_sentence_ja := buildSentenceOrderCompletionSentence payload s5.ordered_options }

/-- Backfill text of the reason when the exam's own answer key supplied the
order. -/
def sentenceOrderReasonText (expectedOrder : List Str) : Str :=
  str "Thu tu được chuan hoa theo đáp án chuan cua de: "
    ++ List.intercalate (str "→") expectedOrder ++ str "."

/-- Reading backfill of completeSentenceOrderSolution. -/
def backfillSentenceReading (init : Except TokenizerError Tokenizer)
    (s : SentenceOrderSolution) : Except TokenizerError SentenceOrderSolution :=
  if s.ordered_sentence_reading_hira = [] ∧ s.ordered_sentence_ja ≠ [] then
    (toReadingHiragana init s.ordered_sentence_ja []).map
      (fun r => { s with ordered_sentence_reading_hira := r })
  else .ok s

/-- Ruby backfill of completeSentenceOrderSolution. -/
def backfillSentenceRuby (init : Except TokenizerError Tokenizer)
    (s : SentenceOrderSolution) : Except TokenizerError SentenceOrderSolution :=
  if s.ordered_sentence_ruby_html = [] ∧ s.ordered_sentence_ja ≠ [] then
    (toRubyHtml init s.ordered_sentence_ja []).map
      (fun r => { s with ordered_sentence_ruby_html := r })
  else .ok s

/-- Reading/ruby/reason backfill tail of completeSentenceOrderSolution. -/
def finishSentenceOrderSolution (init : Except TokenizerError Tokenizer)
    (expectedComplete : Bool) (expectedOrder : List Str)
    (s6 : SentenceOrderSolution) : Except TokenizerError SentenceOrderSolution :=
  match backfillSentenceReading init s6 with
  | .error e => .error e
  | .ok s7 =>
    match backfillSentenceRuby init s7 with
    | .error e => .error e
    | .ok s8 =>
      .ok (if s8.reason_vi = [] ∧ expectedComplete then
          { s8 with reason_vi := sentenceOrderReasonText expectedOrder }
        else s8)

/-- Models completeSentenceOrderSolution of the source; the repair model
call is the `repairResponse` parameter and the Reading Annotator backfill
runs against the `init` tokenizer. -/
def completeSentenceOrderSolution (init : Except TokenizerError Tokenizer)
    (payload : ExamQuestionPayload) (explanation : ExamQuestionExplanation)
    (repairResponse : Option JsonV) : Except TokenizerError ExamQuestionExplanation :=
  if payload.questionType ≠ .sentence_order then .ok explanation
  else
    match explanation.sentence_order_solution with
    | none => .ok explanation
    | some sol0 =>
      let optionKeys := jsSortStrKeys (payload.options.map Prod.fst)
      let expectedOrder := uniqueOptions payload.sentenceOrderExpectedOrder optionKeys
      (finishSentenceOrderSolution init (hasCompleteOrder expectedOrder optionKeys)
          expectedOrder (completeSentenceOrderCore payload sol0 repairResponse)).map
        (fun s => { explanation with sentence_order_solution := some s })

/- ------------------------------------------------------------------ -/
/- Structural lemmas about the sentence-order completion               -/
/- ------------------------------------------------------------------ -/

lemma except_map_ok {ε α β : Type} {f : α → β} {e : Except ε α} {x : β}
    (h : e.map f = .ok x) : ∃ a, e = .ok a ∧ x = f a := by
  cases e with
  | error er => exact absurd h (by simp [Except.map])
  | ok a =>
    refine ⟨a, rfl, ?_⟩
    simpa [Except.map] using h.symm

lemma backfillSentenceReading_fields {init : Except TokenizerError Tokenizer}
    {s t : SentenceOrderSolution} (h : backfillSentenceReading init s = .ok t) :
    t.ordered_options = s.ordered_options ∧ t.star_option = s.star_option ∧
      t.ordered_sentence_ja = s.ordered_sentence_ja := by
  unfold backfillSentenceReading at h
  split at h
  · obtain ⟨r, _, hxf⟩ := except_map_ok h
    rw [hxf]
    exact ⟨rfl, rfl, rfl⟩
  · simp only [Except.ok.injEq] at h
    rw [← h]
    exact ⟨rfl, rfl, rfl⟩

lemma backfillSentenceRuby_fields {init : Except TokenizerError Tokenizer}
    {s t : SentenceOrderSolution} (h : backfillSentenceRuby init s = .ok t) :
    t.ordered_options = s.ordered_options ∧ t.star_option = s.star_option ∧
      t.ordered_sentence_ja = s.ordered_sentence_ja := by
  unfold backfillSentenceRuby at h
  split at h
  · obtain ⟨r, _, hxf⟩ := except_map_ok h
    rw [hxf]
    exact ⟨rfl, rfl, rfl⟩
  · simp only [Except.ok.injEq] at h
    rw [← h]
    exact ⟨rfl, rfl, rfl⟩

lemma finishSentenceOrderSolution_fields {init : Except TokenizerError Tokenizer}
    {ec : Bool} {eo : List Str} {s6 t : SentenceOrderSolution}
    (h : finishSentenceOrderSolution init ec eo s6 = .ok t) :
    t.ordered_options = s6.ordered_options ∧ t.star_option = s6.star_option ∧
      t.ordered_sentence_ja = s6.ordered_sentence_ja := by
  unfold finishSentenceOrderSolution at h
  split at h
  · exact Except.noConfusion h
  next s7 h7 =>
    split at h
    · exact Except.noConfusion h
    next s8 h8 =>
      have ht8 := Except.ok.inj h
      obtain ⟨ha7, hb7, hc7⟩ := backfillSentenceReading_fields h7
      obtain ⟨ha8, hb8, hc8⟩ := backfillSentenceRuby_fields h8
      have ht : t.ordered_options = s8.ordered_options ∧ t.star_option = s8.star_option ∧
          t.ordered_sentence_ja = s8.ordered_sentence_ja := by
        rw [← ht8]
        split
        · exact ⟨rfl, rfl, rfl⟩
        · exact ⟨rfl, rfl, rfl⟩
      exact ⟨ht.1.trans (ha8.trans ha7), ht.2.1.trans (hb8.trans hb7),
        ht.2.2.trans (hc8.trans hc7)⟩

/-- Extracting the completed solution: when the pipeline succeeds on a
sentence-assembly payload and reports a solution, that solution's ordered
options, star option and sentence are those of the pure completion core. -/
lemma completeSentenceOrderSolution_ok_sol {init : Except TokenizerError Tokenizer}
    {payload : ExamQuestionPayload} {expl res : ExamQuestionExplanation}
    {repair : Option JsonV} {sol : SentenceOrderSolution}
    (hType : payload.questionType = .sentence_order)
    (hRes : completeSentenceOrderSolution init payload expl repair = .ok res)
    (hSol : res.sentence_order_solution = some sol) :
    ∃ sol0, expl.sentence_order_solution = some sol0 ∧
      sol.ordered_options = (completeSentenceOrderCore payload sol0 repair).ordered_options ∧
      sol.star_option = (completeSentenceOrderCore payload sol0 repair).star_option ∧
      sol.ordered_sentence_ja = (completeSentenceOrderCore payload sol0 repair).ordered_sentence_ja := by
  unfold completeSentenceOrderSolution at hRes
  rw [if_neg (fun hc => hc hType)] at hRes
  cases hE : expl.sentence_order_solution with
  | none =>
    rw [hE] at hRes
    dsimp only at hRes
    have := Except.ok.inj hRes
    rw [← this] at hSol
    rw [hE] at hSol
    cases hSol
  | some sol0 =>
    rw [hE] at hRes
    dsimp only at hRes
    obtain ⟨s9, hf, hres⟩ := except_map_ok hRes
    rw [hres] at hSol
    simp only [Option.some.injEq] at hSol
    obtain ⟨ha, hb, hc⟩ := finishSentenceOrderSolution_fields hf
    exact ⟨sol0, rfl, hSol ▸ ha, hSol ▸ hb, hSol ▸ hc⟩

lemma completeSentenceOrderOrdering_star (payload : ExamQuestionPayload)
    (sol0 : SentenceOrderSolution) (repair : Option JsonV) :
    ∃ x, (completeSentenceOrderOrdering payload sol0 repair).star_option =
      jsOr payload.correctAnswer x :=
  ⟨_, rfl⟩

lemma completeSentenceOrderCore_star (payload : ExamQuestionPayload)
    (sol0 : SentenceOrderSolution) (repair : Option JsonV) :
    (completeSentenceOrderCore payload sol0 repair).star_option =
      (completeSentenceOrderOrdering payload sol0 repair).star_option := by
  unfold completeSentenceOrderCore
  dsimp only
  split
  · rfl
  · rfl

lemma completeSentenceOrderCore_ordered (payload : ExamQuestionPayload)
    (sol0 : SentenceOrderSolution) (repair : Option JsonV) :
    (completeSentenceOrderCore payload sol0 repair).ordered_options =
      (completeSentenceOrderOrdering payload sol0 repair).ordered_options := by
  unfold completeSentenceOrderCore
  dsimp only
  split
  · rfl
  · rfl

/-- C4: for every sentence-assembly question with a known correct-answer
key, and for every model output, every repair response and every tokenizer
state, the star_option of the completed solution equals the correct-answer
key — and already asSentenceOrderSolution forces the star to the known
correct answer — so the model's proposed star_option is never used. -/
theorem c4_star_option_forced (init : Except TokenizerError Tokenizer)
    (payload : ExamQuestionPayload) (expl : ExamQuestionExplanation)
    (repair : Option JsonV) (sol : SentenceOrderSolution)
    (hType : payload.questionType = .sentence_order)
    (hCA : payload.correctAnswer ≠ [])
    (hSol : (completeSentenceOrderSolution init payload expl repair).toOption.bind
      (fun e => e.sentence_order_solution) = some sol) :
    sol.star_option = payload.correctAnswer ∧
      ∀ v s, asSentenceOrderSolution v payload = some s →
        s.star_option = payload.correctAnswer := by
  have hres : ∃ res, completeSentenceOrderSolution init payload expl repair = .ok res ∧
      res.sentence_order_solution = some sol := by
    cases hr : completeSentenceOrderSolution init payload expl repair with
    | ok res =>
      rw [hr] at hSol
      simp only [Except.toOption, Option.bind_some] at hSol
      exact ⟨res, rfl, hSol⟩
    | error e =>
      rw [hr] at hSol
      simp [Except.toOption] at hSol
  obtain ⟨res, hRes, hSol'⟩ := hres
  constructor
  · obtain ⟨sol0, _, _, hstar, _⟩ := completeSentenceOrderSolution_ok_sol hType hRes hSol'
    rw [hstar, completeSentenceOrderCore_star]
    obtain ⟨x, hx⟩ := completeSentenceOrderOrdering_star payload sol0 repair
    rw [hx]
    unfold jsOr
    rw [if_pos hCA]
  · intro v s hs
    unfold asSentenceOrderSolution at hs
    rw [if_neg (fun hc => hc hType)] at hs
    simp only [Option.some.injEq] at hs
    rw [← hs]
    show jsOr payload.correctAnswer _ = payload.correctAnswer
    unfold jsOr
    rw [if_pos hCA]

/-- Payload used by the C4 witness. -/
def c4Payload : ExamQuestionPayload :=
  { level := str "N3", examId := str "exam1", part := 1, sectionTitle := [],
    questionLabel := [], mondaiLabel := [], questionType := .sentence_order,
    questionTypeLabelVi := [], typeStrategyVi := [], questionText := [],
    questionWithBlank := [], questionWithAnswer := [], blankLabels := [],
    isClozeQuestion := false, options := [(str "1", str "ab"), (str "2", str "cd")],
    correctAnswer := str "2", passageText := [], sentenceOrderExpectedOrder := [] }

/-- Explanation fed to the C4 witness: the model proposed a wrong star. -/
def c4Expl : ExamQuestionExplanation :=
  { question_ja := [], question_ruby_html := [], question_reading_hira := [],
    question_translation_vi := [],
    sentence_order_solution := some ⟨[], [], [], [], str "1", []⟩,
    key_point_vi := [], reasoning_steps_vi := [], option_analysis := [],
    options_with_reading := [], key_vocab := [], grammar_points := [],
    trap_patterns_vi := [], part_strategy_vi := [], quick_tip_vi := [],
    final_conclusion_vi := [] }

/-- C4 witness: the theorem applied at a concrete payload whose model
output proposed star option 1 while the correct answer is 2; the completed
solution carries star option 2. -/
theorem c4_witness :
    (⟨[str "1", str "2"], str "abcd", [], [], str "2", []⟩ : SentenceOrderSolution).star_option
      = c4Payload.correctAnswer :=
  (c4_star_option_forced (.ok fun _ => []) c4Payload c4Expl none
    ⟨[str "1", str "2"], str "abcd", [], [], str "2", []⟩ rfl (by decide) (by decide)).1

/- ------------------------------------------------------------------ -/
/- Claim C9: the sentence-order solution is always synthesized         -/
/- ------------------------------------------------------------------ -/

lemma normalizeExplanation_sol (raw : JsonV) (payload : ExamQuestionPayload)
    (pre : PrecomputedReadings) :
    (normalizeExplanation raw payload pre).sentence_order_solution =
      asSentenceOrderSolution (jget (normalizedValue raw) (str "sentence_order_solution")) payload :=
  rfl

lemma asSentenceOrderSolution_synthesized (v : Option JsonV)
    (payload : ExamQuestionPayload) (hType : payload.questionType = .sentence_order) :
    ∃ s, asSentenceOrderSolution v payload = some s ∧
      (∀ x ∈ s.ordered_options, x ∈ payload.options.map Prod.fst) ∧
      ((∀ w, v = some w → isObject w = false) →
        s.ordered_options = [] ∧ s.ordered_sentence_ja = [] ∧
          s.ordered_sentence_ruby_html = [] ∧ s.ordered_sentence_reading_hira = [] ∧
          s.reason_vi = []) := by
  unfold asSentenceOrderSolution
  rw [if_neg (fun hc => hc hType)]
  dsimp only
  refine ⟨_, rfl, ?_, ?_⟩
  · intro x hx
    have := List.mem_filter.mp hx
    exact (of_decide_eq_true this.2).2
  · intro hrow
    have hrow' : sentenceOrderRow v = JsonV.jobj [] := by
      cases v with
      | none => rfl
      | some w =>
        have hw : isObject w = false := hrow w rfl
        show normalizedValue w = JsonV.jobj []
        unfold normalizedValue
        rw [if_neg (by rw [hw]; exact Bool.false_ne_true)]
    rw [hrow']
    exact ⟨rfl, rfl, rfl, rfl, rfl⟩

/-- C9: for every sentence-assembly payload and every raw model response
(including one whose sentence_order_solution field is missing, null, or not
an object), the normalized explanation carries a non-null sentence-order
solution whose ordered options all come from the payload's option keys, and
whose string fields default to the empty string when the field was not a
usable object. -/
theorem c9_solution_never_null (raw : JsonV) (payload : ExamQuestionPayload)
    (pre : PrecomputedReadings) (hType : payload.questionType = .sentence_order) :
    ∃ s, (normalizeExplanation raw payload pre).sentence_order_solution = some s ∧
      (∀ x ∈ s.ordered_options, x ∈ payload.options.map Prod.fst) ∧
      ((∀ w, jget (normalizedValue raw) (str "sentence_order_solution") = some w →
          isObject w = false) →
        s.ordered_options = [] ∧ s.ordered_sentence_ja = [] ∧
          s.ordered_sentence_ruby_html = [] ∧ s.ordered_sentence_reading_hira = [] ∧
          s.reason_vi = []) := by
  rw [normalizeExplanation_sol]
  exact asSentenceOrderSolution_synthesized _ payload hType

/-- Payload used by the C9 witness. -/
def c9Payload : ExamQuestionPayload :=
  { level := str "N3", examId := str "exam1", part := 1, sectionTitle := [],
    questionLabel := [], mondaiLabel := [], questionType := .sentence_order,
    questionTypeLabelVi := [], typeStrategyVi := [], questionText := [],
    questionWithBlank := [], questionWithAnswer := [], blankLabels := [],
    isClozeQuestion := false, options := [(str "1", str "a"), (str "2", str "b")],
    correctAnswer := str "1", passageText := [], sentenceOrderExpectedOrder := [] }

/-- C9 witness: the theorem applied to a garbage (null) model response. -/
theorem c9_witness :
    ∃ s, (normalizeExplanation .jnull c9Payload ⟨[], [], [], []⟩).sentence_order_solution = some s ∧
      (∀ x ∈ s.ordered_options, x ∈ c9Payload.options.map Prod.fst) ∧
      ((∀ w, jget (normalizedValue .jnull) (str "sentence_order_solution") = some w →
          isObject w = false) →
        s.ordered_options = [] ∧ s.ordered_sentence_ja = [] ∧
          s.ordered_sentence_ruby_html = [] ∧ s.ordered_sentence_reading_hira = [] ∧
          s.reason_vi = []) :=
  c9_solution_never_null .jnull c9Payload ⟨[], [], [], []⟩ rfl

/- ------------------------------------------------------------------ -/
/- Claim C1: substring-search lemmas                                   -/
/- ------------------------------------------------------------------ -/

lemma isPrefixOf_append_self : ∀ (l t : List Char), l.isPrefixOf (l ++ t) = true := by
  intro l t
  induction l with
  | nil => simp [List.isPrefixOf]
  | cons a as ih => simp [List.isPrefixOf, ih]

lemma firstMatchPos_of_split : ∀ (A sub B : Str),
    ∃ i ≤ A.length, firstMatchPos (A ++ (sub ++ B)) sub = some i := by
  intro A
  induction A with
  | nil =>
    intro sub B
    refine ⟨0, Nat.le_refl 0, ?_⟩
    rw [firstMatchPos.eq_def]
    dsimp only
    rw [List.nil_append, if_pos (isPrefixOf_append_self sub B)]
  | cons a A' ih =>
    intro sub B
    by_cases hp : sub.isPrefixOf (a :: (A' ++ (sub ++ B))) = true
    · refine ⟨0, Nat.zero_le _, ?_⟩
      rw [List.cons_append, firstMatchPos.eq_def]
      dsimp only
      rw [if_pos hp]
    · obtain ⟨i, hi, heq⟩ := ih sub B
      refine ⟨i + 1, by simpa using Nat.succ_le_succ hi, ?_⟩
      rw [List.cons_append, firstMatchPos.eq_def]
      dsimp only
      rw [if_neg hp, heq]
      rfl

lemma indexOfFrom_of_split (A sub B : Str) (start : Nat)
    (hsub : sub ≠ []) (hstart : start ≤ A.length) :
    ∃ i, indexOfFrom (A ++ (sub ++ B)) sub start = some i ∧ start ≤ i ∧ i ≤ A.length := by
  unfold indexOfFrom
  rw [if_neg hsub]
  have hdrop : (A ++ (sub ++ B)).drop start = A.drop start ++ (sub ++ B) :=
    List.drop_append_of_le_length hstart
  obtain ⟨i, hi, heq⟩ := firstMatchPos_of_split (A.drop start) sub B
  rw [hdrop, heq]
  refine ⟨i + start, rfl, Nat.le_add_left start i, ?_⟩
  have hlen : (A.drop start).length = A.length - start := List.length_drop start A
  omega

lemma strIncludes_of_split (A sub B : Str) : strIncludes (A ++ (sub ++ B)) sub = true := by
  unfold strIncludes
  obtain ⟨i, _, heq⟩ := firstMatchPos_of_split A sub B
  rw [heq]
  rfl

lemma zip_all_eq_of_length : ∀ {l1 l2 : List Str}, l1.length = l2.length →
    ((l1.zip l2).all (fun p => decide (p.1 = p.2)) = true) → l1 = l2 := by
  intro l1
  induction l1 with
  | nil =>
    intro l2 hlen _
    exact (List.length_eq_zero.mp hlen.symm).symm
  | cons a as ih =>
    intro l2 hlen hall
    cases l2 with
    | nil => cases hlen
    | cons b bs =>
      simp only [List.zip_cons_cons, List.all_cons, Bool.and_eq_true, decide_eq_true_eq] at hall
      rw [hall.1, ih (by simpa using hlen) hall.2]

lemma perm_of_hasCompleteOrder {l keys : List Str}
    (h : hasCompleteOrder l keys = true) : List.Perm l keys := by
  unfold hasCompleteOrder at h
  split at h
  · cases h
  next hlen =>
    have hlen' : l.length = keys.length := by omega
    have hs1 := jsStableSort_perm (fun a b => decide (sortOptionKey a b ≤ 0)) l
    have hs2 := jsStableSort_perm (fun a b => decide (sortOptionKey a b ≤ 0)) keys
    have hsl : (jsSortStrKeys l).length = (jsSortStrKeys keys).length := by
      unfold jsSortStrKeys
      rw [hs1.length_eq, hs2.length_eq, hlen']
    have hse := zip_all_eq_of_length hsl h
    unfold jsSortStrKeys at hse
    have hstep : List.Perm l (jsStableSort (fun a b => decide (sortOptionKey a b ≤ 0)) keys) := by
      rw [← hse]
      exact hs1.symm
    exact hstep.trans hs2

/- ------------------------------------------------------------------ -/
/- Claim C1: uniqueOptions permutation lemmas                          -/
/- ------------------------------------------------------------------ -/

lemma uniqueOptionsAux_subset_allow {allow : List Str} :
    ∀ (l seen : List Str) (x : Str), x ∈ uniqueOptionsAux allow seen l → x ∈ allow := by
  intro l
  induction l with
  | nil => intro seen x hx; cases hx
  | cons v rest ih =>
    intro seen x hx
    rw [uniqueOptionsAux] at hx
    split at hx
    · exact ih seen x hx
    next hguard =>
      push_neg at hguard
      rcases List.mem_cons.mp hx with h | h
      · exact h ▸ hguard.2.1
      · exact ih _ x h

lemma uniqueOptionsAux_nodup_disjoint {allow : List Str} :
    ∀ (l seen : List Str),
      (uniqueOptionsAux allow seen l).Nodup ∧
        ∀ x ∈ uniqueOptionsAux allow seen l, x ∉ seen := by
  intro l
  induction l with
  | nil => intro seen; exact ⟨List.nodup_nil, by intro x hx; cases hx⟩
  | cons v rest ih =>
    intro seen
    rw [uniqueOptionsAux]
    split
    · exact ih seen
    next hguard =>
      push_neg at hguard
      obtain ⟨hnd, hdisj⟩ := ih (normalizeOptionKeyStr v :: seen)
      constructor
      · exact List.nodup_cons.mpr
          ⟨fun hmem => hdisj _ hmem (List.mem_cons_self _ _), hnd⟩
      · intro x hx
        rcases List.mem_cons.mp hx with h | h
        · exact h ▸ hguard.2.2
        · intro hseen
          exact hdisj x h (List.mem_cons_of_mem _ hseen)

lemma uniqueOptionsAux_covers {allow : List Str} :
    ∀ (l seen : List Str) (v : Str), v ∈ l →
      normalizeOptionKeyStr v ≠ [] → normalizeOptionKeyStr v ∈ allow →
      normalizeOptionKeyStr v ∈ seen ∨ normalizeOptionKeyStr v ∈ uniqueOptionsAux allow seen l := by
  intro l
  induction l with
  | nil => intro seen v hv; cases hv
  | cons w rest ih =>
    intro seen v hv hne hallow
    rw [uniqueOptionsAux]
    rcases List.mem_cons.mp hv with hvw | hvrest
    · subst hvw
      split
      next hguard =>
        rcases hguard with h | h | h
        · exact absurd h hne
        · exact absurd hallow h
        · exact Or.inl h
      · exact Or.inr (List.mem_cons_self _ _)
    · split
      · exact ih seen v hvrest hne hallow
      next hguard =>
        rcases ih (normalizeOptionKeyStr w :: seen) v hvrest hne hallow with h | h
        · rcases List.mem_cons.mp h with h' | h'
          · exact Or.inr (h' ▸ List.mem_cons_self _ _)
          · exact Or.inl h'
        · exact Or.inr (List.mem_cons_of_mem _ h)

/-- Padding with the full key list always produces a permutation of the
keys, provided every key normalizes to itself, is non-empty, and the keys
are distinct. -/
lemma uniqueOptions_append_perm (xs keys : List Str)
    (hfix : ∀ k ∈ keys, normalizeOptionKeyStr k = k)
    (hne : ∀ k ∈ keys, k ≠ [])
    (hnd : keys.Nodup) :
    List.Perm (uniqueOptions (xs ++ keys) keys) keys := by
  have hsub : uniqueOptions (xs ++ keys) keys ⊆ keys := by
    intro x hx
    exact uniqueOptionsAux_subset_allow (xs ++ keys) [] x hx
  have hout := @uniqueOptionsAux_nodup_disjoint keys (xs ++ keys) []
  have hsup : keys ⊆ uniqueOptions (xs ++ keys) keys := by
    intro k hk
    have := @uniqueOptionsAux_covers keys (xs ++ keys) [] k
      (List.mem_append_right xs hk) (by rw [hfix k hk]; exact hne k hk)
      (by rw [hfix k hk]; exact hk)
    rcases this with h | h
    · cases h
    · rw [hfix k hk] at h
      exact h
  exact (hout.1.subperm hsub).antisymm (hnd.subperm hsup)

/-- The ordering steps always leave ordered_options a permutation of the
option keys, for well-behaved keys: if the pre-padding order already passed
hasCompleteOrder it is sorted-equal to the keys, otherwise the padding step
fills it. -/
lemma completeSentenceOrderOrdering_perm (payload : ExamQuestionPayload)
    (sol0 : SentenceOrderSolution) (repair : Option JsonV)
    (hfix : ∀ k ∈ payload.options.map Prod.fst, normalizeOptionKeyStr k = k)
    (hne : ∀ k ∈ payload.options.map Prod.fst, k ≠ [])
    (hnd : (payload.options.map Prod.fst).Nodup) :
    List.Perm (completeSentenceOrderOrdering payload sol0 repair).ordered_options
      (payload.options.map Prod.fst) := by
  have hperm : List.Perm (jsSortStrKeys (payload.options.map Prod.fst))
      (payload.options.map Prod.fst) :=
    jsStableSort_perm _ _
  have hfix' : ∀ k ∈ jsSortStrKeys (payload.options.map Prod.fst),
      normalizeOptionKeyStr k = k := fun k hk => hfix k (hperm.subset hk)
  have hne' : ∀ k ∈ jsSortStrKeys (payload.options.map Prod.fst), k ≠ [] :=
    fun k hk => hne k (hperm.subset hk)
  have hnd' : (jsSortStrKeys (payload.options.map Prod.fst)).Nodup :=
    hperm.nodup_iff.mpr hnd
  have hpad : ∀ s3 : SentenceOrderSolution,
      List.Perm (padSentenceOrder (jsSortStrKeys (payload.options.map Prod.fst)) s3).ordered_options
        (jsSortStrKeys (payload.options.map Prod.fst)) := by
    intro s3
    unfold padSentenceOrder
    split
    · dsimp only
      exact uniqueOptions_append_perm _ _ hfix' hne' hnd'
    next h =>
      exact perm_of_hasCompleteOrder (not_not.mp h)
  unfold completeSentenceOrderOrdering
  dsimp only
  exact (hpad _).trans hperm

/- ------------------------------------------------------------------ -/
/- Claim C1: the rebuilt sentence passes the validators                -/
/- ------------------------------------------------------------------ -/

lemma jsGet_getD_ne {opts : List (Str × Str)} {k : Str}
    (hk : k ∈ opts.map Prod.fst) (htexts : ∀ kv ∈ opts, kv.2 ≠ []) :
    (jsGet opts k).getD [] ≠ [] := by
  cases hfind : opts.find? (fun p => decide (p.1 = k)) with
  | none =>
    rcases List.mem_map.mp hk with ⟨p, hp, he⟩
    have := List.find?_eq_none.mp hfind p hp
    simp [he] at this
  | some p =>
    have hpmem := List.mem_of_find?_eq_some hfind
    have hgd : jsGet opts k = some p.2 := by unfold jsGet; rw [hfind]; rfl
    rw [hgd]
    exact htexts p hpmem

lemma sentenceOrderScan_concat (options : List (Str × Str)) (sentence : Str) :
    ∀ (ks : List Str) (X Y : Str) (cursor : Int),
      (∀ k ∈ ks, (jsGet options k).getD [] ≠ []) →
      sentence = X ++ ((ks.map (fun o => (jsGet options o).getD [])).flatten ++ Y) →
      cursor + 1 ≤ (X.length : Int) →
      sentenceOrderScan sentence options ks cursor = true := by
  intro ks
  induction ks with
  | nil => intro X Y cursor _ _ _; rfl
  | cons k rest ih =>
    intro X Y cursor hts hsent hcur
    have ht : (jsGet options k).getD [] ≠ [] := hts k (List.mem_cons_self k rest)
    rw [List.map_cons, List.flatten_cons, List.append_assoc] at hsent
    have hstart : (cursor + 1).toNat ≤ X.length := by
      rcases Int.le_total 0 (cursor + 1) with h0 | h0
      · omega
      · have : (cursor + 1).toNat = 0 := Int.toNat_of_nonpos h0
        omega
    obtain ⟨idx, heq, hge, hle⟩ := indexOfFrom_of_split X ((jsGet options k).getD [])
      ((rest.map (fun o => (jsGet options o).getD [])).flatten ++ Y)
      (cursor + 1).toNat ht hstart
    rw [sentenceOrderScan]
    rw [if_neg ht, hsent, heq]
    dsimp only
    have hcursor_lt : ¬ ((idx : Int) < cursor) := by
      have h1 : cursor + 1 ≤ ((cursor + 1).toNat : Int) := Int.self_le_toNat _
      have h2 : ((cursor + 1).toNat : Int) ≤ (idx : Int) := by exact_mod_cast hge
      omega
    rw [if_neg hcursor_lt, ← hsent]
    apply ih (X ++ (jsGet options k).getD []) Y idx
      (fun q hq => hts q (List.mem_cons_of_mem k hq))
    · rw [hsent, List.append_assoc]
    · have hlen : ((jsGet options k).getD []).length ≠ 0 :=
        fun h0 => ht (List.length_eq_zero.mp h0)
      rw [List.length_append]
      push_cast
      omega

lemma containsAll_concat (options : List (Str × Str)) (ks : List Str)
    (hne : ks ≠ []) (hts : ∀ k ∈ ks, (jsGet options k).getD [] ≠ []) :
    isSentenceContainsAllOptionTexts
      ((ks.map (fun o => (jsGet options o).getD [])).flatten) ks options = true := by
  have hsent_ne : (ks.map (fun o => (jsGet options o).getD [])).flatten ≠ [] := by
    cases ks with
    | nil => exact absurd rfl hne
    | cons k rest =>
      rw [List.map_cons, List.flatten_cons]
      intro h
      exact hts k (List.mem_cons_self k rest) (List.append_eq_nil.mp h).1
  unfold isSentenceContainsAllOptionTexts
  rw [if_neg (by rintro (h | h); exacts [hsent_ne h, hne h])]
  rw [List.all_eq_true]
  intro o ho
  dsimp only
  rw [Bool.and_eq_true]
  refine ⟨decide_eq_true (hts o ho), ?_⟩
  rcases List.append_of_mem ho with ⟨l1, l2, rfl⟩
  rw [List.map_append, List.flatten_append, List.map_cons, List.flatten_cons]
  exact strIncludes_of_split _ _ _

lemma orderConsistent_concat (options : List (Str × Str)) (ks : List Str)
    (hne : ks ≠ []) (hts : ∀ k ∈ ks, (jsGet options k).getD [] ≠ []) :
    isSentenceOptionOrderConsistent
      ((ks.map (fun o => (jsGet options o).getD [])).flatten) ks options = true := by
  have hsent_ne : (ks.map (fun o => (jsGet options o).getD [])).flatten ≠ [] := by
    cases ks with
    | nil => exact absurd rfl hne
    | cons k rest =>
      rw [List.map_cons, List.flatten_cons]
      intro h
      exact hts k (List.mem_cons_self k rest) (List.append_eq_nil.mp h).1
  unfold isSentenceOptionOrderConsistent
  rw [if_neg (by rintro (h | h); exacts [hsent_ne h, hne h])]
  exact sentenceOrderScan_concat options _ ks [] [] (-1) hts (by simp) (by simp)

lemma buildSentenceOrderCompletionSentence_base_empty
    (payload : ExamQuestionPayload) (orderedOptions : List Str)
    (hblank : payload.questionWithBlank = []) (hqt : payload.questionText = []) :
    buildSentenceOrderCompletionSentence payload orderedOptions =
      (orderedOptions.map (fun o => (jsGet payload.options o).getD [])).flatten := by
  unfold buildSentenceOrderCompletionSentence
  rw [hblank, hqt]
  rfl

/-- The sentence of the completed core passes the containment and order
validators, for well-behaved keys and non-empty option texts, when the
deterministic rebuild is the bare concatenation (no base sentence text). -/
lemma completeSentenceOrderCore_sentence (payload : ExamQuestionPayload)
    (sol0 : SentenceOrderSolution) (repair : Option JsonV)
    (hfix : ∀ k ∈ payload.options.map Prod.fst, normalizeOptionKeyStr k = k)
    (hne : ∀ k ∈ payload.options.map Prod.fst, k ≠ [])
    (hnd : (payload.options.map Prod.fst).Nodup)
    (hopts : payload.options ≠ [])
    (htexts : ∀ kv ∈ payload.options, kv.2 ≠ [])
    (hblank : payload.questionWithBlank = []) (hqt : payload.questionText = []) :
    isSentenceContainsAllOptionTexts
        (completeSentenceOrderCore payload sol0 repair).ordered_sentence_ja
        (completeSentenceOrderCore payload sol0 repair).ordered_options payload.options = true ∧
      isSentenceOptionOrderConsistent
        (completeSentenceOrderCore payload sol0 repair).ordered_sentence_ja
        (completeSentenceOrderCore payload sol0 repair).ordered_options payload.options = true := by
  have hperm := completeSentenceOrderOrdering_perm payload sol0 repair hfix hne hnd
  have hkeys_ne : payload.options.map Prod.fst ≠ [] := by
    intro h
    exact hopts (List.map_eq_nil_iff.mp h)
  have hord_ne : (completeSentenceOrderOrdering payload sol0 repair).ordered_options ≠ [] := by
    intro h
    exact hkeys_ne (List.Perm.nil_eq (h ▸ hperm)).symm
  have hts : ∀ k ∈ (completeSentenceOrderOrdering payload sol0 repair).ordered_options,
      (jsGet payload.options k).getD [] ≠ [] :=
    fun k hk => jsGet_getD_ne (hperm.subset hk) htexts
  unfold completeSentenceOrderCore
  dsimp only
  split
  next hchecks =>
    simp only [Bool.and_eq_true] at hchecks
    exact hchecks
  next hchecks =>
    dsimp only
    rw [buildSentenceOrderCompletionSentence_base_empty payload _ hblank hqt]
    exact ⟨containsAll_concat payload.options _ hord_ne hts,
      orderConsistent_concat payload.options _ hord_ne hts⟩

/- ------------------------------------------------------------------ -/
/- Claim C1: theorem, counterexample and witness                       -/
/- ------------------------------------------------------------------ -/

/-- C1 (amended): for every sentence-assembly payload whose option keys
are fixed points of option-key normalization, non-empty and distinct, the
solution returned by completeSentenceOrderSolution has ordered_options
that is exactly a permutation of the question's option keys; and when
additionally every option text is non-empty and the payload carries no
base sentence text (questionWithBlank and questionText empty, so the
deterministic rebuild is the bare concatenation), the final
ordered_sentence_ja passes the code's own containment and order
validators for that permutation. -/
theorem c1_permutation_and_sentence (init : Except TokenizerError Tokenizer)
    (payload : ExamQuestionPayload) (expl : ExamQuestionExplanation)
    (repair : Option JsonV) (sol : SentenceOrderSolution)
    (hType : payload.questionType = .sentence_order)
    (hfix : ∀ k ∈ payload.options.map Prod.fst, normalizeOptionKeyStr k = k)
    (hne : ∀ k ∈ payload.options.map Prod.fst, k ≠ [])
    (hnd : (payload.options.map Prod.fst).Nodup)
    (hopts : payload.options ≠ [])
    (hSol : (completeSentenceOrderSolution init payload expl repair).toOption.bind
      (fun e => e.sentence_order_solution) = some sol) :
    List.Perm sol.ordered_options (payload.options.map Prod.fst) ∧
      ((∀ kv ∈ payload.options, kv.2 ≠ []) →
        payload.questionWithBlank = [] → payload.questionText = [] →
        isSentenceContainsAllOptionTexts sol.ordered_sentence_ja sol.ordered_options
            payload.options = true ∧
          isSentenceOptionOrderConsistent sol.ordered_sentence_ja sol.ordered_options
            payload.options = true) := by
  have hres : ∃ res, completeSentenceOrderSolution init payload expl repair = .ok res ∧
      res.sentence_order_solution = some sol := by
    cases hr : completeSentenceOrderSolution init payload expl repair with
    | ok res =>
      rw [hr] at hSol
      simp only [Except.toOption, Option.bind_some] at hSol
      exact ⟨res, rfl, hSol⟩
    | error e =>
      rw [hr] at hSol
      simp [Except.toOption] at hSol
  obtain ⟨res, hRes, hSol'⟩ := hres
  obtain ⟨sol0, hE, hOrd, hStar, hJa⟩ := completeSentenceOrderSolution_ok_sol hType hRes hSol'
  constructor
  · rw [hOrd, completeSentenceOrderCore_ordered]
    exact completeSentenceOrderOrdering_perm payload sol0 repair hfix hne hnd
  · intro htexts hblank hqt
    rw [hOrd, hJa]
    exact completeSentenceOrderCore_sentence payload sol0 repair hfix hne hnd hopts
      htexts hblank hqt

/-- Payload of the C1 counterexample: a non-empty option map whose single
key 12 is not a fixed point of option-key normalization. -/
def c1CxPayload : ExamQuestionPayload :=
  { level := str "N3", examId := str "exam1", part := 1, sectionTitle := [],
    questionLabel := [], mondaiLabel := [], questionType := .sentence_order,
    questionTypeLabelVi := [], typeStrategyVi := [], questionText := [],
    questionWithBlank := [], questionWithAnswer := [], blankLabels := [],
    isClozeQuestion := false, options := [(str "12", str "x")],
    correctAnswer := str "12", passageText := [], sentenceOrderExpectedOrder := [] }

/-- Explanation fed to the C1 counterexample and witness: an empty model
solution. -/
def c1Expl : ExamQuestionExplanation :=
  { question_ja := [], question_ruby_html := [], question_reading_hira := [],
    question_translation_vi := [],
    sentence_order_solution := some ⟨[], [], [], [], [], []⟩,
    key_point_vi := [], reasoning_steps_vi := [], option_analysis := [],
    options_with_reading := [], key_vocab := [], grammar_points := [],
    trap_patterns_vi := [], part_strategy_vi := [], quick_tip_vi := [],
    final_conclusion_vi := [] }

/-- C1 counterexample: for the non-empty option map with the single key
12, the completed solution's ordered_options is the empty list, which is
not a permutation of the option keys, so the claim as stated (for every
payload with a non-empty option map) is false: normalizeOptionKey maps 12
to 1, which the padding step then rejects as outside the allow set. -/
theorem c1_counterexample :
    ((completeSentenceOrderSolution (.ok fun _ => []) c1CxPayload c1Expl none).toOption.bind
      (fun e => e.sentence_order_solution)).map (fun s => s.ordered_options) = some [] ∧
    ¬ List.Perm ([] : List Str) (c1CxPayload.options.map Prod.fst) :=
  ⟨by decide, by decide⟩

/-- Payload of the C1 witness: two well-behaved keys with non-empty texts
and no base sentence text. -/
def c1WitnessPayload : ExamQuestionPayload :=
  { level := str "N3", examId := str "exam1", part := 1, sectionTitle := [],
    questionLabel := [], mondaiLabel := [], questionType := .sentence_order,
    questionTypeLabelVi := [], typeStrategyVi := [], questionText := [],
    questionWithBlank := [], questionWithAnswer := [], blankLabels := [],
    isClozeQuestion := false, options := [(str "1", str "ab"), (str "2", str "cd")],
    correctAnswer := str "2", passageText := [], sentenceOrderExpectedOrder := [] }

/-- C1 witness: the amended theorem applied at a concrete payload; the
pipeline pads the empty model order to the full permutation and rebuilds
the sentence as the concatenation, which passes both validators. -/
theorem c1_witness :
    List.Perm ([str "1", str "2"]) (c1WitnessPayload.options.map Prod.fst) ∧
      isSentenceContainsAllOptionTexts (str "abcd") [str "1", str "2"]
          c1WitnessPayload.options = true ∧
        isSentenceOptionOrderConsistent (str "abcd") [str "1", str "2"]
          c1WitnessPayload.options = true := by
  have h := c1_permutation_and_sentence (.ok fun _ => []) c1WitnessPayload c1Expl none
    ⟨[str "1", str "2"], str "abcd", [], [], str "2", []⟩
    rfl (by decide) (by decide) (by decide) (by decide) (by decide)
  exact ⟨h.1, (h.2 (by decide) rfl rfl).1, (h.2 (by decide) rfl rfl).2⟩

/- ------------------------------------------------------------------ -/
/- Claim C5: schema completeness of the option lists                   -/
/- ------------------------------------------------------------------ -/

/-- Keys of an assoc-list map. -/
def keysOf {α : Type} (m : List (Str × α)) : List Str := m.map Prod.fst

lemma jsMapSet_keys {α : Type} (m : List (Str × α)) (k : Str) (v : α) :
    keysOf (jsMapSet m k v) = if k ∈ keysOf m then keysOf m else keysOf m ++ [k] := by
  unfold jsMapSet keysOf
  by_cases hk : k ∈ m.map Prod.fst
  · rw [if_pos (List.any_eq_true.mpr (by
      rcases List.mem_map.mp hk with ⟨p, hp, he⟩
      exact ⟨p, hp, decide_eq_true he⟩)), if_pos hk, List.map_map]
    apply List.map_congr_left
    intro p _
    by_cases h : p.1 = k
    · simp [h]
    · simp [h]
  · rw [if_neg (fun hany => hk (by
      rcases List.any_eq_true.mp hany with ⟨p, hp, he⟩
      exact List.mem_map.mpr ⟨p, hp, of_decide_eq_true he⟩)), if_neg hk, List.map_append]
    rfl

lemma jsMapSet_keys_nodup {α : Type} {m : List (Str × α)} {k : Str} {v : α}
    (hnd : (keysOf m).Nodup) : (keysOf (jsMapSet m k v)).Nodup := by
  rw [jsMapSet_keys]
  split
  · exact hnd
  next hk => simp [List.nodup_append, hnd, hk]

lemma jsMapSet_mem_keys {α : Type} {m : List (Str × α)} {k k' : Str} {v : α}
    (h : k' ∈ keysOf m) : k' ∈ keysOf (jsMapSet m k v) := by
  rw [jsMapSet_keys]
  split
  · exact h
  · exact List.mem_append_left _ h

lemma jsMapSet_mem_keys_self {α : Type} (m : List (Str × α)) (k : Str) (v : α) :
    k ∈ keysOf (jsMapSet m k v) := by
  rw [jsMapSet_keys]
  split
  next hk => exact hk
  · exact List.mem_append_right _ (List.mem_singleton.mpr rfl)

lemma jsMapSet_keysMatch {α : Type} (proj : α → Str) {m : List (Str × α)} {k : Str} {v : α}
    (hm : ∀ p ∈ m, proj p.2 = p.1) (hv : proj v = k) :
    ∀ p ∈ jsMapSet m k v, proj p.2 = p.1 := by
  unfold jsMapSet
  split
  · intro p hp
    rcases List.mem_map.mp hp with ⟨q, hq, he⟩
    by_cases h : q.1 = k
    · rw [← he]
      simp only [if_pos h]
      exact hv
    · rw [← he]
      simp only [if_neg h]
      exact hm q hq
  · intro p hp
    rcases List.mem_append.mp hp with h | h
    · exact hm p h
    · rw [List.mem_singleton.mp h]
      exact hv

/-- A fold step either leaves the map unchanged or performs one keyed
update whose stored value projects to its key. -/
def StepOk {α β : Type} (proj : α → Str)
    (step : List (Str × α) → β → List (Str × α)) : Prop :=
  ∀ m item, step m item = m ∨ ∃ k v, proj v = k ∧ step m item = jsMapSet m k v

lemma foldl_stepOk_inv {α β : Type} (proj : α → Str)
    (step : List (Str × α) → β → List (Str × α)) (hstep : StepOk proj step) :
    ∀ (items : List β) (m : List (Str × α)),
      (keysOf m).Nodup → (∀ p ∈ m, proj p.2 = p.1) →
      (keysOf (items.foldl step m)).Nodup ∧ ∀ p ∈ items.foldl step m, proj p.2 = p.1 := by
  intro items
  induction items with
  | nil => intro m hnd hkm; exact ⟨hnd, hkm⟩
  | cons item rest ih =>
    intro m hnd hkm
    rw [List.foldl_cons]
    rcases hstep m item with h | ⟨k, v, hv, h⟩
    · rw [h]
      exact ih m hnd hkm
    · rw [h]
      exact ih _ (jsMapSet_keys_nodup hnd) (jsMapSet_keysMatch proj hkm hv)

lemma foldl_stepOk_mem_keys {α β : Type} (proj : α → Str)
    (step : List (Str × α) → β → List (Str × α)) (hstep : StepOk proj step) :
    ∀ (items : List β) (m : List (Str × α)) (k' : Str),
      k' ∈ keysOf m → k' ∈ keysOf (items.foldl step m) := by
  intro items
  induction items with
  | nil => intro m k' h; exact h
  | cons item rest ih =>
    intro m k' h
    rw [List.foldl_cons]
    rcases hstep m item with he | ⟨k, v, hv, he⟩
    · rw [he]
      exact ih m k' h
    · rw [he]
      exact ih _ k' (jsMapSet_mem_keys h)

lemma optionAnalysisStep_stepOk : StepOk (fun a => a.option) optionAnalysisStep := by
  intro m item
  unfold optionAnalysisStep
  by_cases h1 : ¬ isObject item = true
  · rw [if_pos h1]
    exact Or.inl rfl
  · rw [if_neg h1]
    dsimp only
    by_cases h2 : normalizeOptionKeyOpt (jget item (str "option")) = []
    · rw [if_pos h2]
      exact Or.inl rfl
    · rw [if_neg h2]
      refine Or.inr ⟨_, _, ?_, rfl⟩
      rfl

lemma missingOptionStep_stepOk (payload : ExamQuestionPayload) :
    StepOk (fun a => a.option) (missingOptionStep payload) := by
  intro m kv
  unfold missingOptionStep
  split
  · exact Or.inl rfl
  · refine Or.inr ⟨_, _, ?_, rfl⟩
    rfl

lemma optionWithReadingStep_stepOk (options optionReadings optionRubyHtmls : List (Str × Str)) :
    StepOk (fun a => a.option) (optionWithReadingStep options optionReadings optionRubyHtmls) := by
  intro m item
  unfold optionWithReadingStep
  by_cases h1 : ¬ isObject item = true
  · rw [if_pos h1]
    exact Or.inl rfl
  · rw [if_neg h1]
    dsimp only
    by_cases h2 : normalizeOptionKeyOpt (jget item (str "option")) = []
    · rw [if_pos h2]
      exact Or.inl rfl
    · rw [if_neg h2]
      refine Or.inr ⟨_, _, ?_, rfl⟩
      rfl

lemma missingOptionWithReadingStep_stepOk (optionReadings optionRubyHtmls : List (Str × Str)) :
    StepOk (fun a => a.option) (missingOptionWithReadingStep optionReadings optionRubyHtmls) := by
  intro m kv
  unfold missingOptionWithReadingStep
  split
  · exact Or.inl rfl
  · refine Or.inr ⟨_, _, ?_, rfl⟩
    rfl

lemma missingStep_covers {α : Type} (proj : α → Str)
    (step : List (Str × α) → (Str × Str) → List (Str × α)) (hstep : StepOk proj step)
    (hcover : ∀ m kv, kv.1 ∈ keysOf (step m kv)) :
    ∀ (opts : List (Str × Str)) (m : List (Str × α)) (k : Str),
      k ∈ opts.map Prod.fst → k ∈ keysOf (opts.foldl step m) := by
  intro opts
  induction opts with
  | nil => intro m k h; cases h
  | cons kv rest ih =>
    intro m k h
    rw [List.foldl_cons]
    rcases List.mem_map.mp h with ⟨q, hq, he⟩
    rcases List.mem_cons.mp hq with h' | h'
    · subst h'
      rw [← he]
      exact foldl_stepOk_mem_keys proj step hstep rest _ _ (hcover m q)
    · exact ih _ k (List.mem_map.mpr ⟨q, h', he⟩)

lemma missingOptionStep_covers (payload : ExamQuestionPayload) :
    ∀ m kv, kv.1 ∈ keysOf (missingOptionStep payload m kv) := by
  intro m kv
  unfold missingOptionStep
  split
  next hany =>
    rcases List.any_eq_true.mp hany with ⟨p, hp, he⟩
    exact (of_decide_eq_true he) ▸ List.mem_map.mpr ⟨p, hp, rfl⟩
  · exact jsMapSet_mem_keys_self m kv.1 _

lemma missingOptionWithReadingStep_covers (optionReadings optionRubyHtmls : List (Str × Str)) :
    ∀ m kv, kv.1 ∈ keysOf (missingOptionWithReadingStep optionReadings optionRubyHtmls m kv) := by
  intro m kv
  unfold missingOptionWithReadingStep
  split
  next hany =>
    rcases List.any_eq_true.mp hany with ⟨p, hp, he⟩
    exact (of_decide_eq_true he) ▸ List.mem_map.mpr ⟨p, hp, rfl⟩
  · exact jsMapSet_mem_keys_self m kv.1 _

lemma countP_fst_eq_one {α : Type} (k : Str) :
    ∀ m : List (Str × α), (keysOf m).Nodup → k ∈ keysOf m →
      m.countP (fun p => decide (p.1 = k)) = 1 := by
  intro m
  induction m with
  | nil => intro _ h; cases h
  | cons p rest ih =>
    intro hnd hk
    unfold keysOf at hnd hk
    rw [List.map_cons, List.nodup_cons] at hnd
    rw [List.countP_cons]
    by_cases h : p.1 = k
    · have hrest : rest.countP (fun p => decide (p.1 = k)) = 0 := by
        rw [List.countP_eq_zero]
        intro q hq
        simp only [decide_eq_true_eq]
        intro he
        exact hnd.1 (h ▸ he ▸ List.mem_map.mpr ⟨q, hq, rfl⟩)
      simp [hrest, h]
    · have hk2 := hk
      rw [List.map_cons] at hk2
      have hk' : k ∈ keysOf rest := by
        rcases List.mem_cons.mp hk2 with h' | h'
        · exact absurd h'.symm h
        · exact h'
      simp [h, ih hnd.2 hk']

lemma countP_values_optionA (k : Str) (m : List (Str × OptionAnalysis))
    (hkm : ∀ p ∈ m, p.2.option = p.1) :
    (m.map Prod.snd).countP (fun a => decide (a.option = k)) =
      m.countP (fun p => decide (p.1 = k)) := by
  rw [List.countP_map]
  apply List.countP_congr
  intro p hp
  simp only [Function.comp_apply]
  rw [hkm p hp]

lemma countP_values_optionW (k : Str) (m : List (Str × OptionWithReading))
    (hkm : ∀ p ∈ m, p.2.option = p.1) :
    (m.map Prod.snd).countP (fun a => decide (a.option = k)) =
      m.countP (fun p => decide (p.1 = k)) := by
  rw [List.countP_map]
  apply List.countP_congr
  intro p hp
  simp only [Function.comp_apply]
  rw [hkm p hp]

lemma forceVerdicts_countP (payload : ExamQuestionPayload) (l : List OptionAnalysis) (k : Str) :
    (forceVerdicts payload l).countP (fun a => decide (a.option = k)) =
      l.countP (fun a => decide (a.option = k)) := by
  unfold forceVerdicts
  split
  · rw [List.countP_map]
    apply List.countP_congr
    intro a _
    rfl
  · rfl

lemma forceVerdicts_verdict_iff (payload : ExamQuestionPayload) (l : List OptionAnalysis)
    (hCA : payload.correctAnswer ≠ []) :
    ∀ a ∈ forceVerdicts payload l, (a.verdict = Verdict.correct ↔ a.option = payload.correctAnswer) := by
  unfold forceVerdicts
  rw [if_pos hCA]
  intro a ha
  rcases List.mem_map.mp ha with ⟨i, _, he⟩
  rw [← he]
  by_cases h : i.option = payload.correctAnswer
  · simp [h]
  · simp [h]

/-- The ordered option keys of the by-option map built by
normalizeExplanation: first the model's usable entries, then the missing
payload keys. -/
lemma addMissing_from_nil (payload : ExamQuestionPayload)
    (hnd : (payload.options.map Prod.fst).Nodup) :
    keysOf (addMissingPayloadOptions [] payload) = payload.options.map Prod.fst := by
  unfold addMissingPayloadOptions
  suffices h : ∀ (opts : List (Str × Str)) (m : List (Str × OptionAnalysis)),
      (opts.map Prod.fst).Nodup → (∀ k ∈ opts.map Prod.fst, k ∉ keysOf m) →
      keysOf (opts.foldl (missingOptionStep payload) m) = keysOf m ++ opts.map Prod.fst by
    simpa [keysOf] using h payload.options [] hnd (by simp [keysOf])
  intro opts
  induction opts with
  | nil => intro m _ _; simp
  | cons kv rest ih =>
    intro m hnd hdisj
    rw [List.map_cons, List.nodup_cons] at hnd
    have hnotin : kv.1 ∉ keysOf m := hdisj kv.1 (by simp)
    have hstep : missingOptionStep payload m kv = jsMapSet m kv.1
        { option := kv.1, meaning_vi := [],
          verdict := if kv.1 = payload.correctAnswer then Verdict.correct else Verdict.wrong,
          reason_vi := [] } := by
      unfold missingOptionStep
      rw [if_neg]
      intro hany
      rcases List.any_eq_true.mp hany with ⟨p, hp, he⟩
      exact hnotin ((of_decide_eq_true he) ▸ List.mem_map.mpr ⟨p, hp, rfl⟩)
    rw [List.foldl_cons, hstep,
      ih _ (hnd.2) (fun k hk => by
        rw [jsMapSet_keys, if_neg hnotin]
        intro hmem
        rcases List.mem_append.mp hmem with h | h
        · exact hdisj k (List.mem_cons_of_mem _ hk) h
        · rcases List.mem_singleton.mp h with rfl
          exact hnd.1 hk),
      jsMapSet_keys, if_neg hnotin, List.append_assoc]
    rfl

lemma forceVerdicts_map_option (payload : ExamQuestionPayload) (l : List OptionAnalysis) :
    (forceVerdicts payload l).map (fun a => a.option) = l.map (fun a => a.option) := by
  unfold forceVerdicts
  split
  · rw [List.map_map]
    apply List.map_congr_left
    intro a _
    rfl
  · rfl

/-- C5: for every raw model response and every payload with distinct option
keys, each payload option key appears exactly once in option_analysis and
in options_with_reading; when a correct answer is set, an entry is marked
correct exactly when its key equals the correct answer; and when the model
supplied no usable option_analysis array, the option_analysis keys are
exactly the payload's option keys (so a garbage response for a 4-option
question yields exactly 4 entries, with only the correct one marked). -/
theorem c5_option_lists_complete (raw : JsonV) (payload : ExamQuestionPayload)
    (pre : PrecomputedReadings)
    (hnd : (payload.options.map Prod.fst).Nodup) :
    (∀ k ∈ payload.options.map Prod.fst,
        (normalizeExplanation raw payload pre).option_analysis.countP
          (fun a => decide (a.option = k)) = 1) ∧
      (∀ k ∈ payload.options.map Prod.fst,
        (normalizeExplanation raw payload pre).options_with_reading.countP
          (fun a => decide (a.option = k)) = 1) ∧
      (payload.correctAnswer ≠ [] →
        ∀ a ∈ (normalizeExplanation raw payload pre).option_analysis,
          (a.verdict = Verdict.correct ↔ a.option = payload.correctAnswer)) ∧
      (jgetArr (normalizedValue raw) (str "option_analysis") = [] →
        List.Perm
          ((normalizeExplanation raw payload pre).option_analysis.map (fun a => a.option))
          (payload.options.map Prod.fst)) := by
  have hOA : (normalizeExplanation raw payload pre).option_analysis =
      forceVerdicts payload
        (jsStableSort (fun a b => decide (sortOptionKey a.option b.option ≤ 0))
          ((addMissingPayloadOptions
            (buildOptionAnalysisMap (jgetArr (normalizedValue raw) (str "option_analysis")))
            payload).map Prod.snd)) := rfl
  have hOWR : (normalizeExplanation raw payload pre).options_with_reading =
      asOptionWithReading (jget (normalizedValue raw) (str "options_with_reading"))
        payload.options pre.optionReadings pre.optionRubyHtmls := rfl
  have hbuild : (keysOf (buildOptionAnalysisMap
        (jgetArr (normalizedValue raw) (str "option_analysis")))).Nodup ∧
      ∀ p ∈ buildOptionAnalysisMap (jgetArr (normalizedValue raw) (str "option_analysis")),
        p.2.option = p.1 := by
    unfold buildOptionAnalysisMap
    exact foldl_stepOk_inv (fun a => a.option) optionAnalysisStep
      optionAnalysisStep_stepOk (jgetArr (normalizedValue raw) (str "option_analysis")) []
      (by simp [keysOf]) (by intro p hp; cases hp)
  have hM : (keysOf (addMissingPayloadOptions
        (buildOptionAnalysisMap (jgetArr (normalizedValue raw) (str "option_analysis")))
        payload)).Nodup ∧
      ∀ p ∈ addMissingPayloadOptions
        (buildOptionAnalysisMap (jgetArr (normalizedValue raw) (str "option_analysis"))) payload,
        p.2.option = p.1 := by
    unfold addMissingPayloadOptions
    exact foldl_stepOk_inv (fun a => a.option) (missingOptionStep payload)
      (missingOptionStep_stepOk payload) payload.options
      (buildOptionAnalysisMap (jgetArr (normalizedValue raw) (str "option_analysis")))
      hbuild.1 hbuild.2
  have hMcov : ∀ k ∈ payload.options.map Prod.fst,
      k ∈ keysOf (addMissingPayloadOptions
        (buildOptionAnalysisMap (jgetArr (normalizedValue raw) (str "option_analysis"))) payload) :=
    fun k hk => missingStep_covers (fun a => a.option) (missingOptionStep payload)
      (missingOptionStep_stepOk payload) (missingOptionStep_covers payload)
      payload.options _ k hk
  refine ⟨?_, ?_, ?_, ?_⟩
  · intro k hk
    rw [hOA, forceVerdicts_countP, (jsStableSort_perm _ _).countP_eq,
      countP_values_optionA k _ hM.2,
      countP_fst_eq_one k _ hM.1 (hMcov k hk)]
  · intro k hk
    have hm1 : (keysOf ((match jget (normalizedValue raw) (str "options_with_reading") with
          | some (.jarr l) => l | _ => []).foldl
          (optionWithReadingStep payload.options pre.optionReadings pre.optionRubyHtmls) [])).Nodup ∧
        ∀ p ∈ (match jget (normalizedValue raw) (str "options_with_reading") with
          | some (.jarr l) => l | _ => []).foldl
          (optionWithReadingStep payload.options pre.optionReadings pre.optionRubyHtmls) [],
          p.2.option = p.1 :=
      foldl_stepOk_inv (fun a => a.option)
        (optionWithReadingStep payload.options pre.optionReadings pre.optionRubyHtmls)
        (optionWithReadingStep_stepOk payload.options pre.optionReadings pre.optionRubyHtmls)
        (match jget (normalizedValue raw) (str "options_with_reading") with
          | some (.jarr l) => l | _ => []) []
        (by simp [keysOf]) (by intro p hp; cases hp)
    have hm2 : (keysOf (payload.options.foldl
          (missingOptionWithReadingStep pre.optionReadings pre.optionRubyHtmls)
          ((match jget (normalizedValue raw) (str "options_with_reading") with
            | some (.jarr l) => l | _ => []).foldl
            (optionWithReadingStep payload.options pre.optionReadings pre.optionRubyHtmls) []))).Nodup ∧
        ∀ p ∈ payload.options.foldl
          (missingOptionWithReadingStep pre.optionReadings pre.optionRubyHtmls)
          ((match jget (normalizedValue raw) (str "options_with_reading") with
            | some (.jarr l) => l | _ => []).foldl
            (optionWithReadingStep payload.options pre.optionReadings pre.optionRubyHtmls) []),
          p.2.option = p.1 :=
      foldl_stepOk_inv (fun a => a.option)
        (missingOptionWithReadingStep pre.optionReadings pre.optionRubyHtmls)
        (missingOptionWithReadingStep_stepOk pre.optionReadings pre.optionRubyHtmls)
        payload.options _ hm1.1 hm1.2
    have hm2cov := missingStep_covers (fun a => a.option)
      (missingOptionWithReadingStep pre.optionReadings pre.optionRubyHtmls)
      (missingOptionWithReadingStep_stepOk pre.optionReadings pre.optionRubyHtmls)
      (missingOptionWithReadingStep_covers pre.optionReadings pre.optionRubyHtmls)
      payload.options ((match jget (normalizedValue raw) (str "options_with_reading") with
        | some (.jarr l) => l | _ => []).foldl
        (optionWithReadingStep payload.options pre.optionReadings pre.optionRubyHtmls) []) k hk
    rw [hOWR]
    show (jsStableSort _ (List.map Prod.snd _)).countP _ = 1
    rw [(jsStableSort_perm _ _).countP_eq,
      countP_values_optionW k _ hm2.2,
      countP_fst_eq_one k _ hm2.1 hm2cov]
  · intro hCA a ha
    rw [hOA] at ha
    exact forceVerdicts_verdict_iff payload _ hCA a ha
  · intro hitems
    have hM0 : buildOptionAnalysisMap (jgetArr (normalizedValue raw) (str "option_analysis")) = [] := by
      rw [hitems]
      rfl
    have hkeys : keysOf (addMissingPayloadOptions
        (buildOptionAnalysisMap (jgetArr (normalizedValue raw) (str "option_analysis"))) payload)
          = payload.options.map Prod.fst := by
      rw [hM0]
      exact addMissing_from_nil payload hnd
    rw [hOA, forceVerdicts_map_option]
    have h2 := ((jsStableSort_perm
      (fun (a b : OptionAnalysis) => decide (sortOptionKey a.option b.option ≤ 0))
      ((addMissingPayloadOptions
        (buildOptionAnalysisMap (jgetArr (normalizedValue raw) (str "option_analysis")))
        payload).map Prod.snd))).map (fun a => a.option)
    refine h2.trans ?_
    rw [List.map_map]
    have h3 : (addMissingPayloadOptions
        (buildOptionAnalysisMap (jgetArr (normalizedValue raw) (str "option_analysis")))
        payload).map ((fun a => a.option) ∘ Prod.snd)
          = payload.options.map Prod.fst := by
      rw [← hkeys]
      apply List.map_congr_left
      intro p hp
      exact hM.2 p hp
    rw [h3]

/-- Payload used by the C5 witness: four options with correct answer 2. -/
def c5Payload : ExamQuestionPayload :=
  { level := str "N3", examId := str "exam1", part := 1, sectionTitle := [],
    questionLabel := [], mondaiLabel := [], questionType := .grammar_choice,
    questionTypeLabelVi := [], typeStrategyVi := [], questionText := str "Q",
    questionWithBlank := [], questionWithAnswer := [], blankLabels := [],
    isClozeQuestion := false,
    options := [(str "1", str "a"), (str "2", str "b"), (str "3", str "c"), (str "4", str "d")],
    correctAnswer := str "2", passageText := [], sentenceOrderExpectedOrder := [] }

/-- C5 witness: the theorem applied to a garbage (null) model response for
the four-option payload; the key 2 appears exactly once and the analysis
keys are exactly the payload keys. -/
theorem c5_witness :
    (normalizeExplanation .jnull c5Payload ⟨[], [], [], []⟩).option_analysis.countP
        (fun a => decide (a.option = str "2")) = 1 ∧
      List.Perm
        ((normalizeExplanation .jnull c5Payload ⟨[], [], [], []⟩).option_analysis.map
          (fun a => a.option))
        (c5Payload.options.map Prod.fst) :=
  ⟨(c5_option_lists_complete .jnull c5Payload ⟨[], [], [], []⟩ (by decide)).1
      (str "2") (by decide),
    (c5_option_lists_complete .jnull c5Payload ⟨[], [], [], []⟩ (by decide)).2.2.2 rfl⟩


/- ------------------------------------------------------------------ -/
/- Router part_001: blank-marker context extraction                    -/
/- ------------------------------------------------------------------ -/

/-- An ASCII decimal digit, the backslash-d class of the source regexes. -/
def isAsciiDigit (c : Char) : Bool := decide ('0' ≤ c ∧ c ≤ '9')

/-- Models the per-line normalizeSpace of the router: drop carriage
returns, collapse each line's whitespace runs to single spaces and trim it,
drop empty lines, and re-join with newline. -/
def normalizeSpace (input : Str) : Str :=
  List.intercalate ['\n']
    ((((input.filter (fun c => c ≠ '\r')).splitOn '\n').map
        (fun line => jsTrim (collapseWs line))).filter (fun line => line ≠ []))

/-- Consumes one leading character matching `p` if present: an optional
single-character regex class at the head of the remaining input. -/
def dropOptionalChar (p : Char → Bool) : Str → Str
  | [] => []
  | c :: rest => if p c then rest else c :: rest

/-- Models isOnlyBlankMarker: after removing all whitespace the text must
match an optional opening bracket, one to three ASCII digits, an optional
closing bracket and an optional trailing punctuation mark, and nothing
else (each character class of the anchored regex is disjoint from the one
after it, so the greedy parse is the only possible one). -/
def isOnlyBlankMarker (text : Str) : Bool :=
  if text = [] then false
  else
    let s0 := text.filter (fun c => !isJsWhitespace c)
    let s1 := dropOptionalChar (fun c => c = '(' || c = ')' || c = '（') s0
    let ds := s1.takeWhile isAsciiDigit
    let s2 := s1.dropWhile isAsciiDigit
    if ds.length = 0 || 3 < ds.length then false
    else
      let s3 := dropOptionalChar (fun c => c = ')' || c = '）') s2
      let s4 := dropOptionalChar (fun c => c = '.' || c = '．' || c = '。' || c = '、') s3
      s4 = []

/-- The first maximal run of ASCII digits in the string (the regex match of
backslash-d-plus), or empty when there is none. -/
def firstDigitRun : Str → Str
  | [] => []
  | c :: rest => if isAsciiDigit c then c :: rest.takeWhile isAsciiDigit else firstDigitRun rest

/-- Models extractDigits: the first digit run, renormalized through Number
and back to a decimal string (dropping leading zeros), or empty. -/
def extractDigits (value : Str) : Str :=
  let run := firstDigitRun value
  if run = [] then [] else Nat.toDigits 10 (digitsToNat run)

/-- Insertion-ordered set add, modelling JavaScript Set.prototype.add. -/
def setAdd (l : List Str) (x : Str) : List Str :=
  if x ∈ l then l else l ++ [x]

/-- Models buildBlankMarkerCandidates: collect the marker digit labels (from
the question text when it is a bare blank marker, else from the question
label) and wrap each label in half-width and full-width parentheses,
preserving first-insertion order. -/
def buildBlankMarkerCandidates (rawQuestionText questionLabel : Str) : List Str :=
  let questionText := jsTrim rawQuestionText
  let labelText := jsTrim questionLabel
  let labels : List Str :=
    if isOnlyBlankMarker questionText then
      let markerDigits := extractDigits questionText
      if markerDigits ≠ [] then setAdd [] markerDigits else []
    else if labelText ≠ [] then
      let l1 := setAdd [] labelText
      let digits := extractDigits labelText
      if digits ≠ [] then setAdd l1 digits else l1
    else []
  if labels = [] then []
  else labels.foldl (fun out label =>
    setAdd (setAdd out (str "(" ++ label ++ str ")")) (str "（" ++ label ++ str "）")) []

/-- The sentence-ending characters of findSentenceStart and
findSentenceEnd: newline and the half- and full-width terminators. -/
def isSentenceEnder (c : Char) : Bool :=
  c = '\n' || c = '。' || c = '｡' || c = '．' || c = '！' || c = '？' || c = '!' || c = '?'

/-- Models findSentenceStart: scan backwards from index - 1 and return one
past the nearest sentence-ending character, or 0. -/
def findSentenceStart (text : Str) : Nat → Nat
  | 0 => 0
  | i + 1 => if isSentenceEnder (text.getD i ' ') then i + 1 else findSentenceStart text i

/-- Forward scan of findSentenceEnd over the remaining characters, carrying
the absolute index; falls back to the text length like the source loop. -/
def findSentenceEndAux (text : Str) : Str → Nat → Nat
  | [], _ => text.length
  | c :: rest, i => if isSentenceEnder c then i + 1 else findSentenceEndAux text rest (i + 1)

/-- Models findSentenceEnd: one past the first sentence-ending character at
or after index, or the text length. -/
def findSentenceEnd (text : Str) (index : Nat) : Nat :=
  findSentenceEndAux text (text.drop index) index

/-- One step of the marker search of extractSentenceAroundBlank: keep the
occurrence with the smallest index, earlier candidates winning ties. -/
def bestMarkerStep (passageText : Str) (acc : Option (Nat × Str)) (marker : Str) :
    Option (Nat × Str) :=
  match firstMatchPos passageText marker with
  | none => acc
  | some idx =>
    match acc with
    | none => some (idx, marker)
    | some best => if idx < best.1 then some (idx, marker) else some best

/-- Models extractSentenceAroundBlank: find the earliest occurrence of any
marker candidate, slice the passage between the surrounding sentence
boundaries and normalize its whitespace. -/
def extractSentenceAroundBlank (passageText : Str) (markers : List Str) : Str :=
  if passageText = [] ∨ markers = [] then []
  else
    match markers.foldl (bestMarkerStep passageText) none with
    | none => []
    | some (markerIndex, markerValue) =>
      if markerValue = [] then []
      else
        let start := findSentenceStart passageText markerIndex
        let stop := findSentenceEnd passageText (markerIndex + markerValue.length)
        normalizeSpace ((passageText.drop start).take (stop - start))

/-- The sentenceWithBlank field of loadQuestionContext: the sentence around
the blank marker built from the question text and the marker label. -/
def sentenceWithBlankOf (passageText rawQuestionText labelForMarker : Str) : Str :=
  extractSentenceAroundBlank passageText
    (buildBlankMarkerCandidates rawQuestionText labelForMarker)

/-- The isClozeQuestion field of loadQuestionContext: a non-empty extracted
blank sentence and a question text that is a bare blank marker. -/
def isClozeQuestionOf (passageText rawQuestionText labelForMarker : Str) : Bool :=
  !(sentenceWithBlankOf passageText rawQuestionText labelForMarker).isEmpty
    && isOnlyBlankMarker rawQuestionText

/-- C7: for question text "(2)" and a passage containing
彼は（2）学校に行った。 followed by 前の文。, the extractor returns exactly
彼は（2）学校に行った。 (bounded by the nearest sentence terminators around
the first full-width marker occurrence, the half-width candidate being
absent) and the question is classified as cloze; the question label does
not matter because the bare-marker question text already supplies the
digit label. -/
theorem c7_marker_extraction (questionLabel : Str) :
    sentenceWithBlankOf (str "昨日。彼は（2）学校に行った。前の文。") (str "(2)")
        questionLabel = str "彼は（2）学校に行った。"
      ∧ isClozeQuestionOf (str "昨日。彼は（2）学校に行った。前の文。") (str "(2)")
          questionLabel = true :=
  ⟨rfl, rfl⟩



/-- C7 witness: the extraction theorem instantiated at a concrete question
label; the label is ignored since the question text is itself the marker. -/
theorem c7_witness :
    sentenceWithBlankOf (str "昨日。彼は（2）学校に行った。前の文。") (str "(2)")
        (str "5番") = str "彼は（2）学校に行った。"
      ∧ isClozeQuestionOf (str "昨日。彼は（2）学校に行った。前の文。") (str "(2)")
          (str "5番") = true :=
  c7_marker_extraction (str "5番")



/- ------------------------------------------------------------------ -/
/- Router part_001: the question-explanation handler                   -/
/- ------------------------------------------------------------------ -/

/-- The prompt version constant of the router. -/
def EXPLANATION_PROMPT_VERSION : Int := 14

/-- The request body of the question-explanation route, after the Number()
conversions (the integer fields are already integers here, so the
Number.isInteger part of the validation always passes). -/
structure ExplainQuestionRequest where
  userId : Str
  code : Str
  level : Str
  examId : Str
  part : Int
  sectionIndex : Int
  questionIndex : Int
  forceRefresh : Bool
deriving DecidableEq

/-- The key columns of the jlpt_question_explanation cache table. -/
structure ExplCacheKey where
  level : Str
  examId : Str
  part : Int
  sectionIndex : Int
  questionIndex : Int
  questionHash : Str
  promptVersion : Int
deriving DecidableEq

/-- The conflict-target columns of the quota request log. -/
structure QuotaKey where
  userId : Str
  level : Str
  examId : Str
  part : Int
  sectionIndex : Int
  questionIndex : Int
  promptVersion : Int
deriving DecidableEq

/-- A cached explanation row: the stored JSON payload (opaque here) and its
source model. -/
structure CachedExplanation where
  explanation : Str
  sourceModel : Str
deriving DecidableEq

/-- The two tables the handler writes through the abstract operations. -/
structure DBState where
  explCache : List (ExplCacheKey × CachedExplanation)
  quotaLog : List QuotaKey
deriving DecidableEq

/-- findCachedExplanation over the sequential database state: the first row
matching every key column, or none. -/
def dbFindCached (db : DBState) (k : ExplCacheKey) : Option CachedExplanation :=
  (db.explCache.find? (fun p => decide (p.1 = k))).map Prod.snd

/-- consumeNonAdminExplanationQuota over the sequential database state: the
insert-if-absent (ON CONFLICT DO NOTHING) on the quota key; true exactly
when the insert affected a row. -/
def dbConsumeQuota (db : DBState) (k : QuotaKey) : Bool × DBState :=
  if k ∈ db.quotaLog then (false, db)
  else (true, { db with quotaLog := db.quotaLog ++ [k] })

/-- saveCachedExplanation over the sequential database state: the upsert on
the full cache key. -/
def dbSaveCached (db : DBState) (k : ExplCacheKey) (v : CachedExplanation) : DBState :=
  { db with explCache :=
      if db.explCache.any (fun p => decide (p.1 = k)) then
        db.explCache.map (fun p => if p.1 = k then (k, v) else p)
      else db.explCache ++ [(k, v)] }

/-- The database operations the handler awaits, over an abstract database
state: each operation returns the state the next operation observes, so an
instantiation other than the sequential one can interleave the writes of
concurrent requests between two operations of this one. -/
structure DbOps (σ : Type) where
  findCached : σ → ExplCacheKey → Option CachedExplanation × σ
  consumeQuota : σ → QuotaKey → Bool × σ
  saveCached : σ → ExplCacheKey → CachedExplanation → σ

/-- The sequential single-request instantiation: plain reads and writes of
one DBState. -/
def prismaOps : DbOps DBState where
  findCached := fun db k => (dbFindCached db k, db)
  consumeQuota := dbConsumeQuota
  saveCached := dbSaveCached

/-- The outcomes of the non-database awaited steps of one run, resolved for
this request: an `.error` carries the HTTP status its thrown error produces
in the catch-all (500 for an error without a status). `ctx` is
loadQuestionContext followed by buildQuestionHash; `genR` is the generated
explanation payload and model; `hydrate` is
hydrateQuestionExplanationWithReadingCache applied with this request's
reading cache. -/
structure HandlerEnv where
  access : Except Int Unit
  ensureTable : Except Int Unit
  role : Option Str
  ctx : Except Int Str
  readingCacheR : Except Int Unit
  genR : Except Int (Str × Str)
  hydrate : Str → Str

/-- The awaited effects of the handler, in the order they are performed. -/
inductive Eff where
  | requireAccessE
  | ensureTableE
  | userLookupE
  | loadContextE
  | readingCacheE
  | findCachedE
  | quotaInsertE
  | generateE
  | saveCachedE
deriving DecidableEq

/-- The response bodies the handler can produce: a cache answer, a freshly
generated answer, or an error body. -/
inductive RespBody where
  | cacheHit (explanation : Str) (sourceModel : Str)
  | generatedR (explanation : Str) (sourceModel : Str)
  | errorR
deriving DecidableEq

/-- One handler run: the HTTP status, the body, the final database state and
the trace of awaited effects. -/
structure HandlerResult (σ : Type) where
  status : Int
  body : RespBody
  db : σ
  trace : List Eff

/-- The cache key the handler queries and writes for this request. -/
def cacheKeyOf (req : ExplainQuestionRequest) (questionHash : Str) : ExplCacheKey :=
  ⟨req.level, req.examId, req.part, req.sectionIndex, req.questionIndex, questionHash,
    EXPLANATION_PROMPT_VERSION⟩

/-- The quota key of consumeNonAdminExplanationQuota for this request. -/
def quotaKeyOf (req : ExplainQuestionRequest) : QuotaKey :=
  ⟨req.userId, req.level, req.examId, req.part, req.sectionIndex, req.questionIndex,
    EXPLANATION_PROMPT_VERSION⟩

/-- ASCII upper-casing, enough for String.prototype.toUpperCase on the role
values the comparison against ADMIN distinguishes. -/
def toUpperAscii (s : Str) : Str :=
  s.map (fun c => if decide ('a' ≤ c ∧ c ≤ 'z') then Char.ofNat (c.toNat - 32) else c)

/-- The isAdmin flag: the user's role (empty when the user or the role is
missing) upper-cased equals ADMIN. -/
def isAdminOf (role : Option Str) : Bool :=
  decide (toUpperAscii (role.getD []) = str "ADMIN")

/-- The generation tail of the handler: call the model, hydrate the result,
upsert the cache row, and answer 200 from the fresh generation; a model
error propagates its status with no save. -/
def generatePhase {σ : Type} (ops : DbOps σ) (env : HandlerEnv) (key : ExplCacheKey)
    (db : σ) (tr : List Eff) : HandlerResult σ :=
  match env.genR with
  | .error st => ⟨st, .errorR, db, tr ++ [.generateE]⟩
  | .ok g =>
    let hydrated := env.hydrate g.1
    ⟨200, .generatedR hydrated g.2, ops.saveCached db key ⟨hydrated, g.2⟩,
      tr ++ [.generateE, .saveCachedE]⟩

/-- The non-admin quota gate: the insert-if-absent on the quota key; on a
zero-row insert the cache is checked again and a now-present row answered
200 from cache, an absent one 429; admins and fresh inserts proceed to
generation. -/
def quotaPhase {σ : Type} (ops : DbOps σ) (env : HandlerEnv)
    (req : ExplainQuestionRequest) (key : ExplCacheKey) (isAdmin : Bool)
    (db : σ) (tr : List Eff) : HandlerResult σ :=
  if isAdmin then generatePhase ops env key db tr
  else
    let cq := ops.consumeQuota db (quotaKeyOf req)
    let tr1 := tr ++ [.quotaInsertE]
    if cq.1 then generatePhase ops env key cq.2 tr1
    else
      let fc := ops.findCached cq.2 key
      let tr2 := tr1 ++ [.findCachedE]
      match fc.1 with
      | some c => ⟨200, .cacheHit (env.hydrate c.explanation) c.sourceModel, fc.2, tr2⟩
      | none => ⟨429, .errorR, fc.2, tr2⟩

/-- The cache phase: outside forceRefresh the explanation is looked up and a
hit answered 200 from cache; otherwise the quota gate and generation run. -/
def cachePhase {σ : Type} (ops : DbOps σ) (env : HandlerEnv)
    (req : ExplainQuestionRequest) (key : ExplCacheKey) (isAdmin : Bool)
    (db : σ) (tr : List Eff) : HandlerResult σ :=
  if req.forceRefresh then quotaPhase ops env req key isAdmin db tr
  else
    let fc := ops.findCached db key
    let tr1 := tr ++ [.findCachedE]
    match fc.1 with
    | some c => ⟨200, .cacheHit (env.hydrate c.explanation) c.sourceModel, fc.2, tr1⟩
    | none => quotaPhase ops env req key isAdmin fc.2 tr1

/-- The question-explanation route: field validation, the exam-access check,
the table bootstrap, the user-role lookup, the admin-only forceRefresh gate,
context and reading-cache loading, then the cache, quota and generation
phases; a thrown step answers its error status through the catch-all. -/
def questionExplanationHandler {σ : Type} (ops : DbOps σ) (env : HandlerEnv)
    (req : ExplainQuestionRequest) (db : σ) : HandlerResult σ :=
  if req.userId = [] ∨ req.level = [] ∨ req.examId = [] then ⟨400, .errorR, db, []⟩
  else if ¬ (req.part = 1 ∨ req.part = 2 ∨ req.part = 3) then ⟨400, .errorR, db, []⟩
  else if req.sectionIndex < 0 ∨ req.questionIndex < 0 then ⟨400, .errorR, db, []⟩
  else
    match env.access with
    | .error st => ⟨st, .errorR, db, [.requireAccessE]⟩
    | .ok _ =>
      match env.ensureTable with
      | .error st => ⟨st, .errorR, db, [.requireAccessE, .ensureTableE]⟩
      | .ok _ =>
        let isAdmin := isAdminOf env.role
        if req.forceRefresh && !isAdmin then
          ⟨403, .errorR, db, [.requireAccessE, .ensureTableE, .userLookupE]⟩
        else
          match env.ctx with
          | .error st =>
            ⟨st, .errorR, db, [.requireAccessE, .ensureTableE, .userLookupE, .loadContextE]⟩
          | .ok questionHash =>
            match env.readingCacheR with
            | .error st =>
              ⟨st, .errorR, db,
                [.requireAccessE, .ensureTableE, .userLookupE, .loadContextE, .readingCacheE]⟩
            | .ok _ =>
              cachePhase ops env req (cacheKeyOf req questionHash) isAdmin db
                [.requireAccessE, .ensureTableE, .userLookupE, .loadContextE, .readingCacheE]



/-- C6: a validated forceRefresh request whose caller passes the exam-access
check but is not an admin answers 403 with the database untouched, the trace
stopping at the user lookup: no cache lookup, quota insert, model call or
save has occurred. -/
theorem c6_force_refresh_forbidden {σ : Type} (ops : DbOps σ) (env : HandlerEnv)
    (req : ExplainQuestionRequest) (db : σ)
    (hu : req.userId ≠ []) (hl : req.level ≠ []) (he : req.examId ≠ [])
    (hp : req.part = 1 ∨ req.part = 2 ∨ req.part = 3)
    (hs : 0 ≤ req.sectionIndex) (hq : 0 ≤ req.questionIndex)
    (ha : env.access = .ok ()) (ht : env.ensureTable = .ok ())
    (hf : req.forceRefresh = true) (hr : isAdminOf env.role = false) :
    (questionExplanationHandler ops env req db).status = 403
      ∧ (questionExplanationHandler ops env req db).db = db
      ∧ (questionExplanationHandler ops env req db).trace
          = [.requireAccessE, .ensureTableE, .userLookupE]
      ∧ Eff.findCachedE ∉ (questionExplanationHandler ops env req db).trace
      ∧ Eff.generateE ∉ (questionExplanationHandler ops env req db).trace := by
  have hrun : questionExplanationHandler ops env req db
      = ⟨403, .errorR, db, [.requireAccessE, .ensureTableE, .userLookupE]⟩ := by
    unfold questionExplanationHandler
    rw [if_neg (by simp [hu, hl, he]), if_neg (not_not_intro hp), if_neg (by omega),
      ha, ht]
    dsimp only
    rw [hf, hr]
    rfl
  rw [hrun]
  refine ⟨rfl, rfl, rfl, ?_, ?_⟩ <;> · dsimp only
                                       decide

/-- The C6 witness environment: access granted, a non-admin role, the other
steps resolved successfully. -/
def c6Env : HandlerEnv :=
  ⟨.ok (), .ok (), some (str "user"), .ok (str "h1"), .ok (), .ok (str "e", str "m"), id⟩

/-- The C6 witness request: forceRefresh set on a valid body. -/
def c6Req : ExplainQuestionRequest :=
  ⟨str "7", [], str "N2", str "examA", 1, 0, 3, true⟩

/-- C6 witness: the forceRefresh theorem applied at the concrete environment,
request and empty sequential database. -/
theorem c6_witness :
    (questionExplanationHandler prismaOps c6Env c6Req ⟨[], []⟩).status = 403
      ∧ (questionExplanationHandler prismaOps c6Env c6Req ⟨[], []⟩).db = (⟨[], []⟩ : DBState)
      ∧ (questionExplanationHandler prismaOps c6Env c6Req ⟨[], []⟩).trace
          = [.requireAccessE, .ensureTableE, .userLookupE]
      ∧ Eff.findCachedE ∉ (questionExplanationHandler prismaOps c6Env c6Req ⟨[], []⟩).trace
      ∧ Eff.generateE ∉ (questionExplanationHandler prismaOps c6Env c6Req ⟨[], []⟩).trace :=
  c6_force_refresh_forbidden prismaOps c6Env c6Req ⟨[], []⟩ (by decide) (by decide)
    (by decide) (by decide) (by decide) (by decide) rfl rfl rfl (by decide)



/-- The effect trace of a run up to and including the first cache lookup. -/
def traceToFirstLookup : List Eff :=
  [.requireAccessE, .ensureTableE, .userLookupE, .loadContextE, .readingCacheE, .findCachedE]

/-- Reduction of the handler, for a validated non-forceRefresh non-admin
request whose pre-database steps succeed and whose first cache lookup
misses, to the quota gate on the post-lookup state. -/
theorem handler_miss_reaches_quota {σ : Type} (ops : DbOps σ) (env : HandlerEnv)
    (req : ExplainQuestionRequest) (db db1 : σ) (questionHash : Str)
    (hu : req.userId ≠ []) (hl : req.level ≠ []) (he : req.examId ≠ [])
    (hp : req.part = 1 ∨ req.part = 2 ∨ req.part = 3)
    (hs : 0 ≤ req.sectionIndex) (hq : 0 ≤ req.questionIndex)
    (ha : env.access = .ok ()) (ht : env.ensureTable = .ok ())
    (hf : req.forceRefresh = false) (hr : isAdminOf env.role = false)
    (hc : env.ctx = .ok questionHash) (hrc : env.readingCacheR = .ok ())
    (hfind1 : ops.findCached db (cacheKeyOf req questionHash) = (none, db1)) :
    questionExplanationHandler ops env req db
      = quotaPhase ops env req (cacheKeyOf req questionHash) false db1
          traceToFirstLookup := by
  unfold questionExplanationHandler
  rw [if_neg (by simp [hu, hl, he]), if_neg (not_not_intro hp), if_neg (by omega),
    ha, ht]
  dsimp only
  rw [hr, hf, if_neg (by decide : ¬ ((false && !false) = true)), hc, hrc]
  dsimp only
  unfold cachePhase
  rw [hf, if_neg (by decide : ¬ (false = true))]
  dsimp only
  rw [hfind1]
  rfl



/-- C2: on an explanation-cache miss for a validated non-admin request, the
handler performs the idempotent quota insert right after the miss; exactly
when the insert affects zero rows it checks the cache a second time,
answering 200 from a row a concurrent request has meanwhile written and 429
from an absent one, in both cases without calling the model; when the
insert affects a row there is no second cache check and generation runs. -/
theorem c2_quota_insert_iff_recheck {σ : Type} (ops : DbOps σ) (env : HandlerEnv)
    (req : ExplainQuestionRequest) (db db1 db2 db3 : σ) (can : Bool)
    (c2 : Option CachedExplanation) (questionHash : Str)
    (hu : req.userId ≠ []) (hl : req.level ≠ []) (he : req.examId ≠ [])
    (hp : req.part = 1 ∨ req.part = 2 ∨ req.part = 3)
    (hs : 0 ≤ req.sectionIndex) (hq : 0 ≤ req.questionIndex)
    (ha : env.access = .ok ()) (ht : env.ensureTable = .ok ())
    (hf : req.forceRefresh = false) (hr : isAdminOf env.role = false)
    (hc : env.ctx = .ok questionHash) (hrc : env.readingCacheR = .ok ())
    (hfind1 : ops.findCached db (cacheKeyOf req questionHash) = (none, db1))
    (hquota : ops.consumeQuota db1 (quotaKeyOf req) = (can, db2))
    (hfind2 : ops.findCached db2 (cacheKeyOf req questionHash) = (c2, db3)) :
    (can = false →
      (questionExplanationHandler ops env req db).trace
          = traceToFirstLookup ++ [Eff.quotaInsertE] ++ [Eff.findCachedE]
      ∧ Eff.generateE ∉ (questionExplanationHandler ops env req db).trace
      ∧ (∀ c, c2 = some c →
          questionExplanationHandler ops env req db
            = ⟨200, .cacheHit (env.hydrate c.explanation) c.sourceModel, db3,
                traceToFirstLookup ++ [Eff.quotaInsertE] ++ [Eff.findCachedE]⟩)
      ∧ (c2 = none →
          questionExplanationHandler ops env req db
            = ⟨429, .errorR, db3,
                traceToFirstLookup ++ [Eff.quotaInsertE] ++ [Eff.findCachedE]⟩))
    ∧ (can = true →
      ∃ t, (questionExplanationHandler ops env req db).trace
            = traceToFirstLookup ++ [Eff.quotaInsertE] ++ t
        ∧ Eff.generateE ∈ t ∧ Eff.findCachedE ∉ t) := by
  rw [handler_miss_reaches_quota ops env req db db1 questionHash hu hl he hp hs hq ha ht
    hf hr hc hrc hfind1]
  unfold quotaPhase
  rw [if_neg (by decide : ¬ (false = true))]
  dsimp only
  rw [hquota]
  dsimp only
  cases can with
  | false =>
    refine ⟨fun _ => ?_, fun h => absurd h (by decide)⟩
    rw [if_neg (by decide : ¬ (false = true))]
    rw [hfind2]
    dsimp only
    cases c2 with
    | none =>
      exact ⟨rfl, by dsimp only; decide, fun c h => Option.noConfusion h, fun _ => rfl⟩
    | some c =>
      refine ⟨rfl, by dsimp only; decide, ?_, fun h => Option.noConfusion h⟩
      intro c' h
      injection h with h2
      subst h2
      rfl
  | true =>
    refine ⟨fun h => absurd h (by decide), fun _ => ?_⟩
    rw [if_pos rfl]
    unfold generatePhase
    cases hg : env.genR with
    | error st =>
      dsimp only
      exact ⟨[.generateE], rfl, by decide, by decide⟩
    | ok g =>
      dsimp only
      exact ⟨[.generateE, .saveCachedE], rfl, by decide, by decide⟩

/-- The C2 witness environment: every pre-database step succeeds and the
caller is an ordinary user. -/
def c2Env : HandlerEnv :=
  ⟨.ok (), .ok (), some (str "user"), .ok (str "h2"), .ok (), .ok (str "e", str "m"), id⟩

/-- The C2 witness request: a valid non-forceRefresh body. -/
def c2Req : ExplainQuestionRequest :=
  ⟨str "7", [], str "N2", str "examA", 1, 0, 3, false⟩

/-- The C2 witness database: no cached explanation and the quota row already
present for this request's key. -/
def c2Db : DBState := ⟨[], [quotaKeyOf c2Req]⟩

/-- C2 witness: the quota theorem applied at the sequential operations on a
state whose quota row exists and whose cache stays empty; the run inserts
nothing, re-checks the cache and answers 429 without generating. -/
theorem c2_witness :
    (questionExplanationHandler prismaOps c2Env c2Req c2Db).trace
        = traceToFirstLookup ++ [Eff.quotaInsertE] ++ [Eff.findCachedE]
      ∧ questionExplanationHandler prismaOps c2Env c2Req c2Db
          = ⟨429, .errorR, c2Db,
              traceToFirstLookup ++ [Eff.quotaInsertE] ++ [Eff.findCachedE]⟩ := by
  have h := c2_quota_insert_iff_recheck prismaOps c2Env c2Req c2Db c2Db c2Db c2Db
    false none (str "h2") (by decide) (by decide) (by decide) (by decide) (by decide)
    (by decide) rfl rfl rfl (by decide) rfl rfl rfl (by decide) rfl
  exact ⟨(h.1 rfl).1, (h.1 rfl).2.2.2 rfl⟩



/-- The C3 environment: every pre-database step succeeds for an ordinary
user, and the model call fails with 502 (upstream failure). -/
def c3EnvFail : HandlerEnv :=
  ⟨.ok (), .ok (), some (str "user"), .ok (str "h3"), .ok (), .error 502, id⟩

/-- The C3 request: a valid non-forceRefresh body for a coordinate the user
has never requested. -/
def c3Req : ExplainQuestionRequest :=
  ⟨str "9", [], str "N1", str "examB", 2, 1, 4, false⟩

/-- C3: for a non-privileged user and a previously-unseen coordinate whose
generation fails, the first call answers 502 — neither a success nor the
quota-exhausted signal — while still consuming the quota row and caching
nothing, and the second identical call answers 429: the user is given the
quota-exhausted response without ever having generated successfully. -/
theorem c3_quota_lost_on_failed_generation :
    (questionExplanationHandler prismaOps c3EnvFail c3Req ⟨[], []⟩).status = 502
      ∧ ¬ ((questionExplanationHandler prismaOps c3EnvFail c3Req ⟨[], []⟩).status = 200
           ∨ (questionExplanationHandler prismaOps c3EnvFail c3Req ⟨[], []⟩).status = 429)
      ∧ quotaKeyOf c3Req
          ∈ (questionExplanationHandler prismaOps c3EnvFail c3Req ⟨[], []⟩).db.quotaLog
      ∧ (questionExplanationHandler prismaOps c3EnvFail c3Req ⟨[], []⟩).db.explCache = []
      ∧ (questionExplanationHandler prismaOps c3EnvFail c3Req
            (questionExplanationHandler prismaOps c3EnvFail c3Req ⟨[], []⟩).db).status = 429
      ∧ Eff.generateE ∉ (questionExplanationHandler prismaOps c3EnvFail c3Req
            (questionExplanationHandler prismaOps c3EnvFail c3Req ⟨[], []⟩).db).trace := by
  decide


end VocabBackend
